import Mathlib

/-! Token-curated registry: ballot keeper and end-of-block settlement.

A shallow embedding of `db/keeper.go` (the `BallotKeeper`) and of
`RegistryApp.endBlocker` from `app/app.go`, followed by the properties proved
about them.

Conventions of the embedding:

* Go `string` / `[]byte` values are `Bytes`; the conversion `[]byte(s)` is the identity.
* `int64` values are integers; every `int64` addition of the source is `add64`,
  which wraps modulo `2^64` as Go does.
* `float64` values are `F64`, a model of IEEE-754 binary64 with round-to-nearest-even.
* A key-value store is the list of its entries in key order; the ballots store holds
  encoded ballots and encoded vote records side by side, as it does in the source.
* A Go `panic` is the result `none`.
* The balance ledger is the bank keeper of the SDK, which is not part of the repository.
  The state records the calls of `AddCoins` made on it; the balances follow from the
  calls, a call that would leave a negative balance being rejected with an error. A
  method of the source that drops the result of `AddCoins` is embedded as dropping it.
-/

namespace TCR

/-! ## Bytes, machine integers -/

/-- A Go `string` or `[]byte`. -/
abbrev Bytes := List Char

/-- Reduce an integer to the `int64` range, two's complement. -/
def wrap64 (x : Int) : Int := (x + 2 ^ 63) % 2 ^ 64 - 2 ^ 63

/-- The `int64` addition of Go: the exact sum, wrapped. -/
def add64 (a b : Int) : Int := wrap64 (a + b)

/-- Membership in the `int64` range. -/
def InInt64 (x : Int) : Prop := -(2 ^ 63) ≤ x ∧ x < 2 ^ 63

instance (x : Int) : Decidable (InInt64 x) := by
  unfold InInt64; infer_instance

/-! ## IEEE-754 binary64 -/

/-- The rational `2^e`. -/
def pow2 (e : Int) : ℚ :=
  if 0 ≤ e then ((2 ^ e.toNat : Nat) : ℚ) else 1 / ((2 ^ (-e).toNat : Nat) : ℚ)

/-- Binary logarithm of a natural number, rounded down, by halving. -/
def log2Fuel : Nat → Nat → Nat
  | 0, _ => 0
  | fuel + 1, n => if n < 2 then 0 else log2Fuel fuel (n / 2) + 1

/-- Binary logarithm of a natural number, rounded down (`0` at `0`). -/
def natLog2 (n : Nat) : Nat := log2Fuel n n

/-- The exponent `e` with `2^e ≤ a < 2^(e+1)`, for a positive rational `a`. -/
def ilog2 (a : ℚ) : Int :=
  let e0 : Int := (natLog2 a.num.natAbs : Int) - (natLog2 a.den : Int)
  if pow2 e0 ≤ a then e0 else e0 - 1

/-- Nearest integer to a rational, ties to the even one. -/
def roundEven (m : ℚ) : Int :=
  let f := m.num / (m.den : Int)
  let r := m - f
  if r < 1 / 2 then f else if 1 / 2 < r then f + 1 else if f % 2 = 0 then f else f + 1

/-- A `float64`: not-a-number, the two infinities, or a finite value. The two zeros
are identified: the only divisors in this program are conversions of integers, which
are never the negative zero, and nothing else observes the sign of a zero. -/
inductive F64 where
  | nan
  | pinf
  | ninf
  | fin (q : ℚ)
deriving DecidableEq

/-- Round a rational to binary64: 53 significant bits, exponents from `-1022` (below
which the spacing stays `2^-1074`) to `1023`, nearest value with ties to even, and
overflow to an infinity when the rounded magnitude reaches `2^1024`. -/
def roundF64 (q : ℚ) : F64 :=
  if q = 0 then .fin 0 else
  let a := |q|
  let e := max (ilog2 a) (-1022)
  let ulp := pow2 (e - 52)
  let r := (roundEven (a / ulp) : ℚ) * ulp
  if pow2 1024 ≤ r then (if 0 < q then .pinf else .ninf)
  else .fin (if 0 < q then r else -r)

namespace F64

/-- The conversion `float64(n)` of an `int64`. -/
def ofInt (n : Int) : F64 := roundF64 n

/-- Sign of a value that is not a NaN: `1`, `0` or `-1`. -/
def sgn : F64 → Int
  | nan => 0
  | pinf => 1
  | ninf => -1
  | fin q => if 0 < q then 1 else if q < 0 then -1 else 0

/-- The `float64` product `x * y`. -/
def mul (x y : F64) : F64 :=
  match x, y with
  | nan, _ => nan
  | _, nan => nan
  | fin a, fin b => roundF64 (a * b)
  | _, _ =>
    if sgn x * sgn y = 0 then nan else if 0 < sgn x * sgn y then pinf else ninf

/-- The `float64` quotient `x / y`. Go does not fault on a zero divisor: the quotient
is an infinity, or a NaN for `0 / 0`. -/
def div (x y : F64) : F64 :=
  match x, y with
  | nan, _ => nan
  | _, nan => nan
  | fin a, fin b =>
    if b = 0 then (if a = 0 then nan else if 0 < a then pinf else ninf)
    else roundF64 (a / b)
  | fin _, _ => fin 0
  | pinf, fin b => if 0 ≤ b then pinf else ninf
  | ninf, fin b => if 0 ≤ b then ninf else pinf
  | _, _ => nan

/-- The comparison `x < y`, false whenever a NaN is involved. -/
def lt (x y : F64) : Bool :=
  match x, y with
  | nan, _ => false
  | _, nan => false
  | fin a, fin b => decide (a < b)
  | ninf, ninf => false
  | ninf, _ => true
  | _, pinf => (x != pinf)
  | _, _ => false

/-- The comparison `x <= y`, false whenever a NaN is involved. -/
def le (x y : F64) : Bool :=
  match x, y with
  | nan, _ => false
  | _, nan => false
  | fin a, fin b => decide (a ≤ b)
  | ninf, _ => true
  | _, pinf => true
  | _, _ => false

/-- The comparison `x > y` of the source. -/
def gt (x y : F64) : Bool := lt y x

/-- Integer part of a rational, rounding toward zero. -/
def truncQ (q : ℚ) : Int := if 0 ≤ q then ⌊q⌋ else -⌊-q⌋

/-- The conversion `int64(x)`: the value truncated toward zero. For a NaN, an infinity
or a value outside the `int64` range Go leaves the result to the implementation; the
model returns `-2^63`, as the amd64 conversion instruction does. -/
def toInt64 : F64 → Int
  | fin q => if InInt64 (truncQ q) then truncQ q else -(2 ^ 63)
  | _ => -(2 ^ 63)

/-- The conversion `int64(x)` is exact truncation: `x` is finite and fits. -/
def FitsInt64 : F64 → Prop
  | fin q => InInt64 (truncQ q)
  | _ => False

instance (x : F64) : Decidable (FitsInt64 x) := by
  cases x <;> unfold FitsInt64 <;> infer_instance

/-- A value that is a NaN, `+Inf`, or finite and not negative. -/
def NotNeg : F64 → Prop
  | ninf => False
  | fin q => 0 ≤ q
  | _ => True

end F64

/-! ## Stores -/

/-- A key-value store (`sdk.KVStore`): its entries, listed in key order. -/
structure KVStore (V : Type) where
  entries : List (Bytes × V)
deriving DecidableEq

namespace KVStore

variable {V : Type}

/-- Entry lookup in a list of entries: the value at the first entry with key `k`. -/
def lookup (k : Bytes) : List (Bytes × V) → Option V
  | [] => none
  | e :: rest => if e.1 = k then some e.2 else lookup k rest

/-- Insertion into a list of entries in key order, replacing the entry at `k`. -/
def insert (k : Bytes) (v : V) : List (Bytes × V) → List (Bytes × V)
  | [] => [(k, v)]
  | e :: rest =>
    if k = e.1 then (k, v) :: rest
    else if k < e.1 then (k, v) :: e :: rest
    else e :: insert k v rest

/-- The call `store.Get(key)`; `none` is the `nil` of Go. -/
def get (s : KVStore V) (k : Bytes) : Option V := lookup k s.entries

/-- The call `store.Set(key, value)`. -/
def set (s : KVStore V) (k : Bytes) (v : V) : KVStore V := ⟨insert k v s.entries⟩

/-- The call `store.Delete(key)`. -/
def delete (s : KVStore V) (k : Bytes) : KVStore V :=
  ⟨s.entries.filter (fun e => !decide (e.1 = k))⟩

/-- The entries visited by `sdk.KVStorePrefixIterator(store, p)`, in key order: those
whose key starts with `p`. -/
def prefixIterator (s : KVStore V) (p : Bytes) : List (Bytes × V) :=
  s.entries.filter (fun e => p.isPrefixOf e.1)

end KVStore

/-! ## Records -/

/-- Modelled from the spec: the record `types.Ballot`, whose declaration is missing from
the source; the fields are those of the data model, under the names the keeper and the
settlement use. The default values are the zero value `types.Ballot{}`. -/
structure Ballot where
  Identifier : Bytes := []
  Owner : Bytes := []
  Challenger : Bytes := []
  Active : Bool := false
  Bond : Int := 0
  EndApplyBlockStamp : Int := 0
  EndCommitBlockStamp : Int := 0
  Approve : Int := 0
  Deny : Int := 0
deriving DecidableEq

/-- Modelled from the spec: the vote record `types.Vote` read by the settlement, whose
declaration is missing from the source. -/
structure Vote where
  Choice : Bool := false
  Power : Int := 0
deriving DecidableEq

/-- Modelled from the spec: the record `types.Listing`, whose declaration is missing
from the source; the default is the zero value `types.Listing{}`. -/
structure Listing where
  Identifier : Bytes := []
  Votes : Int := 0
deriving DecidableEq

/-- A value of the ballots store: the encoding of a ballot, or of a vote record. The
codec is taken to round-trip, so an encoded record is kept as the record itself
together with the type it was encoded from. -/
inductive Record where
  | ballot (b : Ballot)
  | vote (v : Vote)
deriving DecidableEq

/-- The call `Cdc.UnmarshalBinary(bz, ballot)`: the ballot that was encoded, or a
decoding error (`none`) when the bytes are not those of a ballot. -/
def decodeBallot : Record → Option Ballot
  | .ballot b => some b
  | .vote _ => none

/-- The call `app.cdc.UnmarshalBinary(vz, vote)` of the settlement, whose error is
dropped: the vote that was encoded, and the untouched zero value `tcr.Vote{}` when the
bytes are not those of a vote. -/
def decodeVote : Record → Vote
  | .vote v => v
  | .ballot _ => {}

/-- An `sdk.Error`, as built by `sdk.NewError(codespace, code, msg)`. -/
structure SdkError where
  codespace : Nat
  code : Nat
deriving DecidableEq

/-! ## State -/

/-- What an `sdk.Context` gives access to: the block height, the two stores of the
keeper, the proposal queue and the ledger of the account keeper. -/
structure State where
  /-- The value of `ctx.BlockHeight()`. -/
  height : Int
  /-- The store under `ListingKey`. -/
  listings : KVStore Listing
  /-- The store under `BallotKey`. -/
  ballots : KVStore Record
  /-- The proposal queue: identifiers, earliest first. -/
  queue : List Bytes
  /-- The calls of `AddCoins` made on the account keeper, earliest first: the address and
  the `RegistryCoin` amount of each. The balances of the ledger follow from them, see
  `GetCoins`. -/
  credits : List (Bytes × Int)
deriving DecidableEq

/-- Modelled from the spec: the balance ledger is an external collaborator (the bank
keeper of the SDK) whose credit operation can fail. This is the effect of one call
`AddCoins(c.1, c.2)` on the `RegistryCoin` amount `balance` held by `addr`: the keeper
adds the amount as an `int64` sum and rejects the call, changing nothing, when the sum
is negative. -/
def ledgerStep (addr : Bytes) (balance : Int) (c : Bytes × Int) : Int :=
  if c.1 = addr ∧ 0 ≤ add64 balance c.2 then add64 balance c.2 else balance

/-- The amount the ledger holds for `addr` after the calls of `AddCoins` in `calls`,
starting from an empty ledger. -/
def creditedTo (addr : Bytes) (calls : List (Bytes × Int)) : Int :=
  calls.foldl (ledgerStep addr) 0

/-- Modelled from the spec: the `RegistryCoin` balance of `addr` in the ledger
(`bank.Keeper.GetCoins(...).AmountOf`), after the calls of `AddCoins` made so far. -/
def GetCoins (s : State) (addr : Bytes) : Int := creditedTo addr s.credits

/-- Modelled from the spec: the credit operation of the balance ledger
(`bank.Keeper.AddCoins` with one `RegistryCoin` coin), an external collaborator. The
call is recorded in `credits`. Its error result is the one of the bank keeper of the
SDK: `ErrInsufficientCoins` (codespace `1`, code `10`) when the balance after the credit,
an `int64` sum, would be negative, and in that case no balance changes (`ledgerStep`);
no error otherwise. -/
def AddCoins (s : State) (addr : Bytes) (amount : Int) : State × Option SdkError :=
  ({ s with credits := s.credits ++ [(addr, amount)] },
    if 0 ≤ add64 (GetCoins s addr) amount then none else some ⟨1, 10⟩)

/-! ## The ballot keeper (`db/keeper.go`) -/

/-- The method `BallotKeeper.GetBallot`. -/
def GetBallot (s : State) (identifier : Bytes) : Option Ballot :=
  match s.ballots.get identifier with
  | none => some {}
  | some val => decodeBallot val

/-- The method `BallotKeeper.AddBallot`. -/
def AddBallot (s : State) (identifier : Bytes) (owner : Bytes) (applyLen : Int)
    (bond : Int) : State × Option SdkError :=
  let newBallot : Ballot :=
    { Identifier := identifier
      Owner := owner
      Bond := bond
      EndApplyBlockStamp := add64 s.height applyLen }
  ({ s with ballots := s.ballots.set identifier (.ballot newBallot) }, none)

/-- The method `BallotKeeper.DeleteBallot`. -/
def DeleteBallot (s : State) (identifier : Bytes) : State :=
  { s with ballots := s.ballots.delete identifier }

/-- The method `BallotKeeper.ActivateBallot`. The argument `owner` is not used by the
source either. -/
def ActivateBallot (s : State) (owner : Bytes) (challenger : Bytes) (identifier : Bytes)
    (commitLen revealLen minBond challengeBond : Int) : Option (State × Option SdkError) :=
  match GetBallot s identifier with
  | none => none
  | some ballot =>
    if ballot.Bond < minBond then
      let s1 := DeleteBallot s identifier
      match AddCoins s1 challenger challengeBond with
      | (s2, some err) => some (s2, some err)
      | (s2, none) => some (s2, none)
    else if ballot.Bond ≠ challengeBond then
      some (s, some ⟨2, 115⟩)
    else
      let ballot1 : Ballot :=
        { ballot with
          Active := true
          Challenger := challenger
          EndCommitBlockStamp := add64 s.height commitLen }
      let ballot2 : Ballot :=
        { ballot1 with EndApplyBlockStamp := add64 ballot1.EndCommitBlockStamp revealLen }
      some ({ s with ballots := s.ballots.set identifier (.ballot ballot2) }, none)

/-- The method `BallotKeeper.VoteBallot`. The argument `owner` is not used by the
source either. -/
def VoteBallot (s : State) (owner : Bytes) (identifier : Bytes) (vote : Bool)
    (power : Int) : Option (State × Option SdkError) :=
  match s.ballots.get identifier with
  | none => some (s, some ⟨2, 107⟩)
  | some bz =>
    match decodeBallot bz with
    | none => none
    | some ballot =>
      let ballot1 : Ballot :=
        if vote then { ballot with Approve := add64 ballot.Approve power }
        else { ballot with Deny := add64 ballot.Deny power }
      some ({ s with ballots := s.ballots.set identifier (.ballot ballot1) }, none)

/-- The method `BallotKeeper.AddListing`. -/
def AddListing (s : State) (identifier : Bytes) (votes : Int) : State :=
  { s with listings := s.listings.set identifier { Identifier := identifier, Votes := votes } }

/-- The method `BallotKeeper.GetListing`. -/
def GetListing (s : State) (identifier : Bytes) : Listing :=
  match s.listings.get identifier with
  | none => {}
  | some listing => listing

/-- The method `BallotKeeper.DeleteListing`. -/
def DeleteListing (s : State) (identifier : Bytes) : State :=
  { s with listings := s.listings.delete identifier }

/-! ## The proposal queue and `DeactivateBallot`

These three methods of the keeper are called by `endBlocker` and are not part of
`db/keeper.go`. -/

/-- Modelled from the spec: `BallotKeeper.ProposalQueueHead`, missing from the source.
The head of the FIFO queue of identifiers, returned as the ballot stored under it; the
zero-value ballot (the empty sentinel, `Identifier == ""`) when the queue is empty or
no ballot is stored under the head identifier. -/
def ProposalQueueHead (s : State) : Ballot :=
  match s.queue with
  | [] => {}
  | identifier :: _ =>
    match s.ballots.get identifier with
    | some (.ballot b) => b
    | _ => {}

/-- Modelled from the spec: `BallotKeeper.ProposalQueuePop`, missing from the source.
Removes the head of the queue. -/
def ProposalQueuePop (s : State) : State :=
  { s with queue := s.queue.tail }

/-- Modelled from the spec: `BallotKeeper.DeactivateBallot`, missing from the source.
An idempotent marker: the ballot stored under `identifier` gets `Active = false`, and
nothing happens when no ballot is stored there. -/
def DeactivateBallot (s : State) (identifier : Bytes) : State :=
  match s.ballots.get identifier with
  | some (.ballot b) =>
    { s with ballots := s.ballots.set identifier (.ballot { b with Active := false }) }
  | _ => s

/-! ## The settlement (`app/app.go`) -/

/-- The fields of `RegistryApp` that are protocol parameters. -/
structure RegistryApp where
  minDeposit : Int
  applyStage : Int
  commitStage : Int
  revealStage : Int
  dispensationPct : F64
  quorum : F64

/-- The bytes of the string `"votes"`. -/
def votesTag : Bytes := ['v', 'o', 't', 'e', 's']

/-- The expression `int64(float64(ballot.Bond) * app.dispensationPct)`. -/
def sponsorDividend (app : RegistryApp) (ballot : Ballot) : Int :=
  F64.toInt64 (F64.mul (F64.ofInt ballot.Bond) app.dispensationPct)

/-- The expression
`float64(vote.Power) / pool * float64(ballot.Bond) * app.dispensationPct`. -/
def voterShare (app : RegistryApp) (ballot : Ballot) (pool : F64) (power : Int) : F64 :=
  F64.mul (F64.mul (F64.div (F64.ofInt power) pool) (F64.ofInt ballot.Bond))
    app.dispensationPct

/-- The expression
`int64(float64(vote.Power) / pool * float64(ballot.Bond) * app.dispensationPct)`. -/
def voterDividend (app : RegistryApp) (ballot : Ballot) (pool : F64) (power : Int) : Int :=
  F64.toInt64 (voterShare app ballot pool power)

/-- The expression `float64(ballot.Approve) / float64(total)`, where `total` is
`ballot.Approve + ballot.Deny`. -/
def approveRatio (ballot : Ballot) : F64 :=
  let total := add64 ballot.Approve ballot.Deny
  F64.div (F64.ofInt ballot.Approve) (F64.ofInt total)

/-- The amount credited for one visited entry of the vote loop of `endBlocker`. -/
def votePayout (app : RegistryApp) (ballot : Ballot) (correctVote : Bool) (pool : F64)
    (vote : Vote) : Int :=
  if correctVote == vote.Choice then
    add64 vote.Power (voterDividend app ballot pool vote.Power)
  else
    vote.Power

/-- One iteration of the vote loop of `endBlocker`, at the entry `kv` of the iterator:
the address is the key without its first `len(identifier + "votes")` bytes. The result
of `AddCoins` is dropped, as in the source. -/
def voteStep (app : RegistryApp) (ballot : Ballot) (correctVote : Bool) (pool : F64)
    (s : State) (kv : Bytes × Record) : State :=
  let index := (ballot.Identifier ++ votesTag).length
  let owner := kv.1.drop index
  let vote := decodeVote kv.2
  (AddCoins s owner (votePayout app ballot correctVote pool vote)).1

/-- The tail of `endBlocker`, from `prefixKey := ...` on: the vote loop over the
entries under `identifier + "votes"`, the deletion of the visited keys, and
`DeactivateBallot`. -/
def settleVotes (app : RegistryApp) (ballot : Ballot) (correctVote : Bool) (pool : F64)
    (s : State) : State :=
  let prefixKey := ballot.Identifier ++ votesTag
  let visited := s.ballots.prefixIterator prefixKey
  let s1 := visited.foldl (voteStep app ballot correctVote pool) s
  let s2 := visited.foldl (fun st kv => { st with ballots := st.ballots.delete kv.1 }) s1
  DeactivateBallot s2 ballot.Identifier

/-- The method `RegistryApp.endBlocker`, as a function of the state it runs on. It drops
the result of every call of `AddCoins`. -/
def endBlocker (app : RegistryApp) (s : State) : State :=
  let ballot := ProposalQueueHead s
  if s.height < ballot.EndApplyBlockStamp || ballot.Identifier == [] then s
  else
    let s1 := ProposalQueuePop s
    if !ballot.Active then
      AddListing s1 ballot.Identifier 0
    else
      if F64.gt (approveRatio ballot) app.quorum then
        let s2 := AddListing s1 ballot.Identifier ballot.Approve
        let reward := sponsorDividend app ballot
        let s3 := (AddCoins s2 ballot.Owner reward).1
        settleVotes app ballot true (F64.ofInt ballot.Approve) s3
      else
        let s2 := DeleteListing s1 ballot.Identifier
        let s3 := DeleteBallot s2 ballot.Identifier
        let reward := add64 ballot.Bond (sponsorDividend app ballot)
        let s4 := (AddCoins s3 ballot.Challenger reward).1
        settleVotes app ballot false (F64.ofInt ballot.Deny) s4

/-- The credits made by the vote loop of `endBlocker` over the visited entries, in
order: one per entry, to the address cut out of its key. -/
def voteCredits (app : RegistryApp) (ballot : Ballot) (correctVote : Bool) (pool : F64)
    (visited : List (Bytes × Record)) : List (Bytes × Int) :=
  visited.map (fun kv =>
    (kv.1.drop (ballot.Identifier ++ votesTag).length,
      votePayout app ballot correctVote pool (decodeVote kv.2)))

/-- The entries of the ballots store under the vote namespace of `identifier`. -/
def voteEntries (s : State) (identifier : Bytes) : List (Bytes × Record) :=
  s.ballots.prefixIterator (identifier ++ votesTag)

/-! ## Outcomes of a settlement, and example states -/

/-- The approve-wins outcome of settling the head ballot `b` of `s` into `s1`: the
listing `{identifier, approve}` is stored and the first credit made is to the owner. -/
def ApproveWins (s s1 : State) (b : Ballot) : Prop :=
  s1.listings = s.listings.set b.Identifier { Identifier := b.Identifier, Votes := b.Approve }
    ∧ ∃ amount rest, s1.credits = s.credits ++ (b.Owner, amount) :: rest

/-- The deny-wins outcome of settling the head ballot `b` of `s` into `s1`: the listing
and the ballot under the identifier are deleted and the first credit made is to the
challenger. -/
def DenyWins (s s1 : State) (b : Ballot) : Prop :=
  s1.listings = s.listings.delete b.Identifier
    ∧ s1.ballots.get b.Identifier = none
    ∧ ∃ amount rest, s1.credits = s.credits ++ (b.Challenger, amount) :: rest

/-- Parameters used in the examples: dividend rate `1/4`, quorum `1/2`. -/
def exApp : RegistryApp :=
  { minDeposit := 10, applyStage := 5, commitStage := 10, revealStage := 10,
    dispensationPct := .fin (1 / 4), quorum := .fin (1 / 2) }

/-- An active ballot `"X"` with bond `100`, due at height `20`, with the given tallies. -/
def exBallot (approve deny : Int) : Ballot :=
  { Identifier := ['X'], Owner := ['o'], Challenger := ['c'], Active := true, Bond := 100,
    EndApplyBlockStamp := 20, EndCommitBlockStamp := 10, Approve := approve, Deny := deny }

/-- A state at height `20` whose queue head is `exBallot approve deny`, with the vote
records of `"A"` (approve, power `a`) and `"B"` (deny, power `d`). -/
def exState (approve deny a d : Int) : State :=
  { height := 20
    listings := ⟨[]⟩
    ballots := ⟨[(['X'], .ballot (exBallot approve deny)),
      (['X'] ++ votesTag ++ ['A'], .vote ⟨true, a⟩),
      (['X'] ++ votesTag ++ ['B'], .vote ⟨false, d⟩)]⟩
    queue := [['X']]
    credits := [] }

/-- A state at height `20` whose queue head `"X"` was never challenged (`Active` is
false) and is due at `endApply`; it carries tallies `5` and `7` and two vote records. -/
def exPending (endApply : Int) : State :=
  { height := 20
    listings := ⟨[]⟩
    ballots := ⟨[(['X'], .ballot { exBallot 5 7 with
        Active := false, Challenger := [], EndApplyBlockStamp := endApply }),
      (['X'] ++ votesTag ++ ['A'], .vote ⟨true, 5⟩),
      (['X'] ++ votesTag ++ ['B'], .vote ⟨false, 7⟩)]⟩
    queue := [['X']]
    credits := [(['o'], 1)] }

/-- A store holds at most one entry under a key. -/
def KVStore.UniqueKeys {V : Type} (s : KVStore V) : Prop := (s.entries.map Prod.fst).Nodup

instance {V : Type} (s : KVStore V) : Decidable s.UniqueKeys := by
  unfold KVStore.UniqueKeys; infer_instance

/-- The value `correctVote` of `endBlocker` for the ballot: true when approve wins. -/
def correctVote (app : RegistryApp) (ballot : Ballot) : Bool :=
  F64.gt (approveRatio ballot) app.quorum

/-- The tally whose conversion is the value `pool` of `endBlocker`: `Approve` when approve
wins, `Deny` otherwise. -/
def poolTally (app : RegistryApp) (ballot : Ballot) : Int :=
  if correctVote app ballot then ballot.Approve else ballot.Deny

/-- Parameters with dividend rate `1` and quorum `1/2`. -/
def exMaxApp : RegistryApp :=
  { minDeposit := 1, applyStage := 5, commitStage := 10, revealStage := 10,
    dispensationPct := .fin 1, quorum := .fin (1 / 2) }

/-- A state at height `20` whose queue head `"X"` is active and due, has bond `1`, and
carries the single approving vote of `"A"` with power `2^63 - 1`, the largest `int64`. -/
def exMaxState : State :=
  { height := 20
    listings := ⟨[]⟩
    ballots := ⟨[(['X'], .ballot { exBallot 9223372036854775807 0 with Bond := 1 }),
      (['X'] ++ votesTag ++ ['A'], .vote ⟨true, 9223372036854775807⟩)]⟩
    queue := [['X']]
    credits := [] }

/-- The pending ballot `"X"` of owner `"o"` with the given bond, as `AddBallot` leaves it
at height `5` with an apply window of `5`. -/
def exProposedBallot (bond : Int) : Ballot :=
  { Identifier := ['X'], Owner := ['o'], Bond := bond, EndApplyBlockStamp := 10 }

/-- A state at height `10` holding `exProposedBallot bond`, in which `"c"` holds `7`. -/
def exProposed (bond : Int) : State :=
  { height := 10
    listings := ⟨[]⟩
    ballots := ⟨[(['X'], .ballot (exProposedBallot bond))]⟩
    queue := [['X']]
    credits := [(['c'], 7)] }

/-- A state at height `20` whose queue head is the active, due ballot `"X"` with the
given tallies and no vote record. -/
def exActive (approve deny : Int) : State :=
  { height := 20
    listings := ⟨[]⟩
    ballots := ⟨[(['X'], .ballot (exBallot approve deny))]⟩
    queue := [['X']]
    credits := [] }

/-- A state at height `20` whose queue head is the active, due ballot `"X"` (tallies `3`
and `1`, one approving vote record of `"A"`), and which also holds the pending ballot
`"Xvotes1"` of owner `"p"` with bond `70`, as `AddBallot("Xvotes1", "p", 25, 70)` stores it
at height `5`. -/
def exCollide : State :=
  { height := 20
    listings := ⟨[]⟩
    ballots := ⟨[(['X'], .ballot (exBallot 3 1)),
      (['X'] ++ votesTag ++ ['1'], .ballot
        { Identifier := ['X'] ++ votesTag ++ ['1'], Owner := ['p'], Bond := 70,
          EndApplyBlockStamp := 30 }),
      (['X'] ++ votesTag ++ ['A'], .vote ⟨true, 3⟩)]⟩
    queue := [['X'], ['X'] ++ votesTag ++ ['1']]
    credits := [] }

/-- The rational `x` is the rational `e` up to `k` roundings of relative size `2^-52`
each: `e * (1 - 2^-52)^k ≤ x ≤ e * (1 + 2^-52)^k`. -/
def Near (k : Nat) (x e : ℚ) : Prop :=
  e * (1 - 1 / 2 ^ 52) ^ k ≤ x ∧ x ≤ e * (1 + 1 / 2 ^ 52) ^ k

/-- The votes read by the vote loop of `endBlocker` from the visited entries that are on
the winning side `correctVote`. -/
def winningVotes (correctVote : Bool) (visited : List (Bytes × Record)) : List Vote :=
  (visited.map (fun kv => decodeVote kv.2)).filter (fun v => correctVote == v.Choice)

/-- The total dividend of the vote loop of `endBlocker`: the payout minus the power, summed
over the visited entries as an exact integer. -/
def totalDividend (app : RegistryApp) (ballot : Ballot) (correctVote : Bool) (pool : F64)
    (visited : List (Bytes × Record)) : Int :=
  (visited.map (fun kv =>
    votePayout app ballot correctVote pool (decodeVote kv.2) - (decodeVote kv.2).Power)).sum

/-- Parameters with dividend rate `3/4` and quorum `1/2`. -/
def exRoundApp : RegistryApp :=
  { minDeposit := 1, applyStage := 5, commitStage := 10, revealStage := 10,
    dispensationPct := .fin (3 / 4), quorum := .fin (1 / 2) }

/-- A state at height `20` whose queue head `"X"` is active and due, has bond `28` and
tallies `3` to `0`, with the approving votes of `"A"` (power `1`) and `"B"` (power `2`). -/
def exRoundState : State :=
  { height := 20
    listings := ⟨[]⟩
    ballots := ⟨[(['X'], .ballot { exBallot 3 0 with Bond := 28 }),
      (['X'] ++ votesTag ++ ['A'], .vote ⟨true, 1⟩),
      (['X'] ++ votesTag ++ ['B'], .vote ⟨true, 2⟩)]⟩
    queue := [['X']]
    credits := [] }

/-- A state at height `20` whose queue head `"X"` is active and due, has bond `2^54` and
tallies `5` to `0`, with five approving votes of power `1`. -/
def exBigState : State :=
  { height := 20
    listings := ⟨[]⟩
    ballots := ⟨[(['X'], .ballot { exBallot 5 0 with Bond := 18014398509481984 }),
      (['X'] ++ votesTag ++ ['A'], .vote ⟨true, 1⟩),
      (['X'] ++ votesTag ++ ['B'], .vote ⟨true, 1⟩),
      (['X'] ++ votesTag ++ ['C'], .vote ⟨true, 1⟩),
      (['X'] ++ votesTag ++ ['D'], .vote ⟨true, 1⟩),
      (['X'] ++ votesTag ++ ['E'], .vote ⟨true, 1⟩)]⟩
    queue := [['X']]
    credits := [] }

/-- The tail of `endBlocker` from `prefixKey := ...` up to its last call,
`DeactivateBallot`, which is left out: the vote loop over the entries under
`identifier + "votes"` and the deletion of the visited keys. -/
def voteLoop (app : RegistryApp) (ballot : Ballot) (correctVote : Bool) (pool : F64)
    (s : State) : State :=
  let prefixKey := ballot.Identifier ++ votesTag
  let visited := s.ballots.prefixIterator prefixKey
  let s1 := visited.foldl (voteStep app ballot correctVote pool) s
  visited.foldl (fun st kv => { st with ballots := st.ballots.delete kv.1 }) s1

/-! ## Store lemmas -/

namespace KVStore

variable {V : Type}

theorem lookup_insert_self (k : Bytes) (v : V) (l : List (Bytes × V)) :
    lookup k (insert k v l) = some v := by
  induction l with
  | nil => simp [insert, lookup]
  | cons e rest ih =>
    unfold insert
    by_cases h1 : k = e.1
    · simp [h1, lookup]
    · by_cases h2 : k < e.1
      · simp [h1, h2, lookup]
      · have h3 : ¬ e.1 = k := fun h => h1 h.symm
        simp [h1, h2, lookup, h3, ih]

theorem lookup_insert_of_ne {j k : Bytes} (h : j ≠ k) (v : V) (l : List (Bytes × V)) :
    lookup j (insert k v l) = lookup j l := by
  have hkj : ¬ k = j := fun e => h e.symm
  induction l with
  | nil => simp [insert, lookup, hkj]
  | cons e rest ih =>
    unfold insert
    by_cases h1 : k = e.1
    · have h4 : ¬ e.1 = j := fun e2 => hkj (h1.trans e2)
      simp [h1, lookup, h4]
    · by_cases h2 : k < e.1
      · simp [h1, h2, lookup, hkj]
      · simp only [h1, h2, if_false, lookup, ih]

theorem lookup_filter_self (k : Bytes) (l : List (Bytes × V)) :
    lookup k (l.filter (fun e => !decide (e.1 = k))) = none := by
  induction l with
  | nil => simp [lookup]
  | cons e rest ih =>
    by_cases h : e.1 = k
    · simp [List.filter, h, ih]
    · simp [List.filter, h, lookup, ih]

theorem lookup_filter_of_ne {j k : Bytes} (h : j ≠ k) (l : List (Bytes × V)) :
    lookup j (l.filter (fun e => !decide (e.1 = k))) = lookup j l := by
  induction l with
  | nil => simp [lookup]
  | cons e rest ih =>
    by_cases h1 : e.1 = k
    · have h2 : ¬ e.1 = j := fun e2 => h (e2.symm.trans h1)
      have h3 : ¬ k = j := fun e2 => h e2.symm
      simp [List.filter, h1, lookup, h3, ih]
    · simp [List.filter, h1, lookup, ih]

theorem lookup_filter_none {j : Bytes} (p : Bytes × V → Bool) (l : List (Bytes × V))
    (h : lookup j l = none) : lookup j (l.filter p) = none := by
  induction l with
  | nil => simp [lookup]
  | cons e rest ih =>
    unfold lookup at h
    by_cases h1 : e.1 = j
    · simp [h1] at h
    · simp only [h1, if_false] at h
      by_cases h2 : p e = true
      · simp [List.filter, h2, lookup, h1, ih h]
      · simp [List.filter, h2, ih h]

theorem get_set_self (s : KVStore V) (k : Bytes) (v : V) : (s.set k v).get k = some v :=
  lookup_insert_self k v s.entries

theorem get_set_of_ne (s : KVStore V) {j k : Bytes} (h : j ≠ k) (v : V) :
    (s.set k v).get j = s.get j :=
  lookup_insert_of_ne h v s.entries

theorem get_delete_self (s : KVStore V) (k : Bytes) : (s.delete k).get k = none :=
  lookup_filter_self k s.entries

theorem get_delete_of_ne (s : KVStore V) {j k : Bytes} (h : j ≠ k) :
    (s.delete k).get j = s.get j :=
  lookup_filter_of_ne h s.entries

theorem get_delete_none (s : KVStore V) {j : Bytes} (k : Bytes) (h : s.get j = none) :
    (s.delete k).get j = none :=
  lookup_filter_none _ s.entries h

end KVStore

/-! ## Settlement lemmas -/

theorem foldl_voteStep_credits (app : RegistryApp) (ballot : Ballot) (c : Bool) (pool : F64)
    (l : List (Bytes × Record)) (s : State) :
    (l.foldl (voteStep app ballot c pool) s).credits
      = s.credits ++ voteCredits app ballot c pool l := by
  induction l generalizing s with
  | nil => simp [voteCredits]
  | cons kv rest ih =>
    rw [List.foldl_cons, ih]
    simp [voteStep, AddCoins, voteCredits]

theorem foldl_voteStep_frame (app : RegistryApp) (ballot : Ballot) (c : Bool) (pool : F64)
    (l : List (Bytes × Record)) (s : State) :
    (l.foldl (voteStep app ballot c pool) s).height = s.height
      ∧ (l.foldl (voteStep app ballot c pool) s).listings = s.listings
      ∧ (l.foldl (voteStep app ballot c pool) s).ballots = s.ballots
      ∧ (l.foldl (voteStep app ballot c pool) s).queue = s.queue := by
  induction l generalizing s with
  | nil => simp
  | cons kv rest ih =>
    rw [List.foldl_cons]
    have h := ih (voteStep app ballot c pool s kv)
    simpa [voteStep, AddCoins] using h

theorem foldl_delete_frame (l : List (Bytes × Record)) (s : State) :
    (l.foldl (fun st kv => { st with ballots := st.ballots.delete kv.1 }) s).height = s.height
      ∧ (l.foldl (fun st kv => { st with ballots := st.ballots.delete kv.1 }) s).listings
          = s.listings
      ∧ (l.foldl (fun st kv => { st with ballots := st.ballots.delete kv.1 }) s).queue
          = s.queue
      ∧ (l.foldl (fun st kv => { st with ballots := st.ballots.delete kv.1 }) s).credits
          = s.credits := by
  induction l generalizing s with
  | nil => simp
  | cons kv rest ih =>
    rw [List.foldl_cons]
    have h := ih { s with ballots := s.ballots.delete kv.1 }
    simpa using h

theorem foldl_delete_get_none (l : List (Bytes × Record)) (s : State) (j : Bytes)
    (h : s.ballots.get j = none) :
    (l.foldl (fun st kv => { st with ballots := st.ballots.delete kv.1 }) s).ballots.get j
      = none := by
  induction l generalizing s with
  | nil => simpa using h
  | cons kv rest ih =>
    rw [List.foldl_cons]
    exact ih _ (KVStore.get_delete_none s.ballots kv.1 h)

theorem DeactivateBallot_frame (s : State) (identifier : Bytes) :
    (DeactivateBallot s identifier).height = s.height
      ∧ (DeactivateBallot s identifier).listings = s.listings
      ∧ (DeactivateBallot s identifier).queue = s.queue
      ∧ (DeactivateBallot s identifier).credits = s.credits := by
  unfold DeactivateBallot
  split <;> simp

theorem DeactivateBallot_of_none (s : State) (identifier : Bytes)
    (h : s.ballots.get identifier = none) : DeactivateBallot s identifier = s := by
  unfold DeactivateBallot
  rw [h]

theorem settleVotes_credits (app : RegistryApp) (ballot : Ballot) (c : Bool) (pool : F64)
    (s : State) :
    (settleVotes app ballot c pool s).credits
      = s.credits ++ voteCredits app ballot c pool (voteEntries s ballot.Identifier) := by
  unfold settleVotes
  simp only []
  rw [(DeactivateBallot_frame _ _).2.2.2, (foldl_delete_frame _ _).2.2.2,
    foldl_voteStep_credits]
  rfl

theorem settleVotes_frame (app : RegistryApp) (ballot : Ballot) (c : Bool) (pool : F64)
    (s : State) :
    (settleVotes app ballot c pool s).height = s.height
      ∧ (settleVotes app ballot c pool s).listings = s.listings
      ∧ (settleVotes app ballot c pool s).queue = s.queue := by
  unfold settleVotes
  simp only []
  have h1 := DeactivateBallot_frame
    ((s.ballots.prefixIterator (ballot.Identifier ++ votesTag)).foldl
      (fun st kv => { st with ballots := st.ballots.delete kv.1 })
      ((s.ballots.prefixIterator (ballot.Identifier ++ votesTag)).foldl
        (voteStep app ballot c pool) s)) ballot.Identifier
  have h2 := foldl_delete_frame (s.ballots.prefixIterator (ballot.Identifier ++ votesTag))
    ((s.ballots.prefixIterator (ballot.Identifier ++ votesTag)).foldl
      (voteStep app ballot c pool) s)
  have h3 := foldl_voteStep_frame app ballot c pool
    (s.ballots.prefixIterator (ballot.Identifier ++ votesTag)) s
  refine ⟨?_, ?_, ?_⟩
  · rw [h1.1, h2.1, h3.1]
  · rw [h1.2.1, h2.2.1, h3.2.1]
  · rw [h1.2.2.1, h2.2.2.1, h3.2.2.2]

theorem settleVotes_get_none (app : RegistryApp) (ballot : Ballot) (c : Bool) (pool : F64)
    (s : State) (h : s.ballots.get ballot.Identifier = none) :
    (settleVotes app ballot c pool s).ballots.get ballot.Identifier = none := by
  unfold settleVotes
  simp only []
  have h3 := foldl_voteStep_frame app ballot c pool
    (s.ballots.prefixIterator (ballot.Identifier ++ votesTag)) s
  have h4 := foldl_delete_get_none (s.ballots.prefixIterator (ballot.Identifier ++ votesTag))
    ((s.ballots.prefixIterator (ballot.Identifier ++ votesTag)).foldl
      (voteStep app ballot c pool) s) ballot.Identifier (by rw [h3.2.2.1]; exact h)
  rw [DeactivateBallot_of_none _ _ h4]
  exact h4

theorem not_isPrefixOf_append_votesTag (identifier : Bytes) :
    (identifier ++ votesTag).isPrefixOf identifier = false := by
  rw [Bool.eq_false_iff]
  intro h
  have h1 := (List.isPrefixOf_iff_prefix.mp h).length_le
  simp [votesTag] at h1

theorem voteEntries_DeleteBallot (s : State) (identifier : Bytes) :
    voteEntries (DeleteBallot s identifier) identifier = voteEntries s identifier := by
  simp only [voteEntries, DeleteBallot, KVStore.prefixIterator, KVStore.delete,
    List.filter_filter]
  apply List.filter_congr
  intro e _
  by_cases h : e.1 = identifier
  · simp [h, not_isPrefixOf_append_votesTag]
  · simp [h]

theorem endBlocker_idle (app : RegistryApp) (s : State)
    (h : (ProposalQueueHead s).Identifier = []
      ∨ s.height < (ProposalQueueHead s).EndApplyBlockStamp) :
    endBlocker app s = s := by
  unfold endBlocker
  rcases h with h | h <;> simp [h]

theorem endBlocker_inactive (app : RegistryApp) (s : State)
    (hid : (ProposalQueueHead s).Identifier ≠ [])
    (hdue : (ProposalQueueHead s).EndApplyBlockStamp ≤ s.height)
    (hact : (ProposalQueueHead s).Active = false) :
    endBlocker app s = AddListing (ProposalQueuePop s) (ProposalQueueHead s).Identifier 0 := by
  unfold endBlocker
  simp [hid, not_lt.mpr hdue, hact]

theorem endBlocker_approve (app : RegistryApp) (s : State)
    (hid : (ProposalQueueHead s).Identifier ≠ [])
    (hdue : (ProposalQueueHead s).EndApplyBlockStamp ≤ s.height)
    (hact : (ProposalQueueHead s).Active = true)
    (hq : F64.gt (approveRatio (ProposalQueueHead s)) app.quorum = true) :
    endBlocker app s
      = settleVotes app (ProposalQueueHead s) true (F64.ofInt (ProposalQueueHead s).Approve)
          (AddCoins
            (AddListing (ProposalQueuePop s) (ProposalQueueHead s).Identifier
              (ProposalQueueHead s).Approve)
            (ProposalQueueHead s).Owner (sponsorDividend app (ProposalQueueHead s))).1 := by
  unfold endBlocker
  simp [hid, not_lt.mpr hdue, hact, hq]

theorem endBlocker_deny (app : RegistryApp) (s : State)
    (hid : (ProposalQueueHead s).Identifier ≠ [])
    (hdue : (ProposalQueueHead s).EndApplyBlockStamp ≤ s.height)
    (hact : (ProposalQueueHead s).Active = true)
    (hq : F64.gt (approveRatio (ProposalQueueHead s)) app.quorum = false) :
    endBlocker app s
      = settleVotes app (ProposalQueueHead s) false (F64.ofInt (ProposalQueueHead s).Deny)
          (AddCoins
            (DeleteBallot (DeleteListing (ProposalQueuePop s) (ProposalQueueHead s).Identifier)
              (ProposalQueueHead s).Identifier)
            (ProposalQueueHead s).Challenger
            (add64 (ProposalQueueHead s).Bond (sponsorDividend app (ProposalQueueHead s)))).1 := by
  unfold endBlocker
  simp [hid, not_lt.mpr hdue, hact, hq]

theorem F64.lt_irrefl (x : F64) : F64.lt x x = false := by
  cases x <;> simp [F64.lt]

theorem endBlocker_approve_effects (app : RegistryApp) (s : State)
    (hid : (ProposalQueueHead s).Identifier ≠ [])
    (hdue : (ProposalQueueHead s).EndApplyBlockStamp ≤ s.height)
    (hact : (ProposalQueueHead s).Active = true)
    (hq : F64.gt (approveRatio (ProposalQueueHead s)) app.quorum = true) :
    (endBlocker app s).listings
        = s.listings.set (ProposalQueueHead s).Identifier
            { Identifier := (ProposalQueueHead s).Identifier,
              Votes := (ProposalQueueHead s).Approve }
      ∧ (endBlocker app s).credits
        = s.credits ++ ((ProposalQueueHead s).Owner, sponsorDividend app (ProposalQueueHead s))
            :: voteCredits app (ProposalQueueHead s) true
                (F64.ofInt (ProposalQueueHead s).Approve)
                (voteEntries s (ProposalQueueHead s).Identifier)
      ∧ (endBlocker app s).queue = s.queue.tail
      ∧ (endBlocker app s).height = s.height := by
  rw [endBlocker_approve app s hid hdue hact hq]
  refine ⟨?_, ?_, ?_, ?_⟩
  · rw [(settleVotes_frame _ _ _ _ _).2.1]; rfl
  · rw [settleVotes_credits]
    simp [AddCoins, AddListing, ProposalQueuePop, voteEntries]
  · rw [(settleVotes_frame _ _ _ _ _).2.2]; rfl
  · rw [(settleVotes_frame _ _ _ _ _).1]; rfl

theorem endBlocker_deny_effects (app : RegistryApp) (s : State)
    (hid : (ProposalQueueHead s).Identifier ≠ [])
    (hdue : (ProposalQueueHead s).EndApplyBlockStamp ≤ s.height)
    (hact : (ProposalQueueHead s).Active = true)
    (hq : F64.gt (approveRatio (ProposalQueueHead s)) app.quorum = false) :
    (endBlocker app s).listings = s.listings.delete (ProposalQueueHead s).Identifier
      ∧ (endBlocker app s).ballots.get (ProposalQueueHead s).Identifier = none
      ∧ (endBlocker app s).credits
        = s.credits ++ ((ProposalQueueHead s).Challenger,
              add64 (ProposalQueueHead s).Bond (sponsorDividend app (ProposalQueueHead s)))
            :: voteCredits app (ProposalQueueHead s) false
                (F64.ofInt (ProposalQueueHead s).Deny)
                (voteEntries s (ProposalQueueHead s).Identifier)
      ∧ (endBlocker app s).queue = s.queue.tail
      ∧ (endBlocker app s).height = s.height := by
  rw [endBlocker_deny app s hid hdue hact hq]
  refine ⟨?_, ?_, ?_, ?_, ?_⟩
  · rw [(settleVotes_frame _ _ _ _ _).2.1]; rfl
  · apply settleVotes_get_none
    exact KVStore.get_delete_self _ _
  · rw [settleVotes_credits]
    have h := voteEntries_DeleteBallot (DeleteListing (ProposalQueuePop s)
      (ProposalQueueHead s).Identifier) (ProposalQueueHead s).Identifier
    have h2 : voteEntries (AddCoins (DeleteBallot (DeleteListing (ProposalQueuePop s)
        (ProposalQueueHead s).Identifier) (ProposalQueueHead s).Identifier)
        (ProposalQueueHead s).Challenger
        (add64 (ProposalQueueHead s).Bond (sponsorDividend app (ProposalQueueHead s)))).1
        (ProposalQueueHead s).Identifier
        = voteEntries s (ProposalQueueHead s).Identifier := by
      exact h
    rw [h2]
    simp [AddCoins, DeleteBallot, DeleteListing, ProposalQueuePop]
  · rw [(settleVotes_frame _ _ _ _ _).2.2]; rfl
  · rw [(settleVotes_frame _ _ _ _ _).1]; rfl

/-! ## Settlement: the quorum branch, the rewards, the gate -/

/-- C1: for a non-empty, due, active head ballot, `endBlocker` produces the approve-wins
outcome (the listing `{identifier, approve}` stored, the sponsor credit made to the owner)
exactly when the `float64` quotient `approve / (approve + deny)` is strictly greater than
the quorum, and the deny-wins outcome (listing and ballot deleted, the sponsor credit
made to the challenger) exactly when it is not; a quotient equal to the quorum gives
the deny-wins outcome. This holds for all tallies, those with `approve + deny > 0`
included. -/
theorem endBlocker_quorum_branch (app : RegistryApp) (s : State)
    (hid : (ProposalQueueHead s).Identifier ≠ [])
    (hdue : (ProposalQueueHead s).EndApplyBlockStamp ≤ s.height)
    (hact : (ProposalQueueHead s).Active = true) :
    (ApproveWins s (endBlocker app s) (ProposalQueueHead s)
        ↔ F64.gt (approveRatio (ProposalQueueHead s)) app.quorum = true)
      ∧ (DenyWins s (endBlocker app s) (ProposalQueueHead s)
        ↔ F64.gt (approveRatio (ProposalQueueHead s)) app.quorum = false)
      ∧ (approveRatio (ProposalQueueHead s) = app.quorum
        → DenyWins s (endBlocker app s) (ProposalQueueHead s)) := by
  have hA : F64.gt (approveRatio (ProposalQueueHead s)) app.quorum = true
      → ApproveWins s (endBlocker app s) (ProposalQueueHead s) := by
    intro hq
    have h := endBlocker_approve_effects app s hid hdue hact hq
    exact ⟨h.1, _, _, h.2.1⟩
  have hD : F64.gt (approveRatio (ProposalQueueHead s)) app.quorum = false
      → DenyWins s (endBlocker app s) (ProposalQueueHead s) := by
    intro hq
    have h := endBlocker_deny_effects app s hid hdue hact hq
    exact ⟨h.1, h.2.1, _, _, h.2.2.1⟩
  have hne : ApproveWins s (endBlocker app s) (ProposalQueueHead s)
      → DenyWins s (endBlocker app s) (ProposalQueueHead s) → False := by
    intro h1 h2
    have h3 := KVStore.get_set_self s.listings (ProposalQueueHead s).Identifier
      { Identifier := (ProposalQueueHead s).Identifier,
        Votes := (ProposalQueueHead s).Approve }
    rw [← h1.1, h2.1, KVStore.get_delete_self] at h3
    exact Option.noConfusion h3
  refine ⟨⟨?_, hA⟩, ⟨?_, hD⟩, ?_⟩
  · intro h1
    by_contra hq
    exact hne h1 (hD (by simpa using hq))
  · intro h2
    by_contra hq
    exact hne (hA (by simpa using hq)) h2
  · intro he
    apply hD
    rw [he, F64.gt, F64.lt_irrefl]

/-- Witness of C1: with tallies `3` to `1` the quotient `0.75` exceeds the quorum `0.5`
and approve wins; with `2` to `2` the quotient equals the quorum and deny wins. -/
theorem endBlocker_quorum_branch_witness :
    (F64.gt (approveRatio (ProposalQueueHead (exState 3 1 3 1))) exApp.quorum = true
      ∧ ApproveWins (exState 3 1 3 1) (endBlocker exApp (exState 3 1 3 1))
          (ProposalQueueHead (exState 3 1 3 1)))
      ∧ (approveRatio (ProposalQueueHead (exState 2 2 2 2)) = exApp.quorum
        ∧ DenyWins (exState 2 2 2 2) (endBlocker exApp (exState 2 2 2 2))
          (ProposalQueueHead (exState 2 2 2 2))) := by
  have h1 := endBlocker_quorum_branch exApp (exState 3 1 3 1) (by decide) (by decide)
    (by decide)
  have h2 := endBlocker_quorum_branch exApp (exState 2 2 2 2) (by decide) (by decide)
    (by decide)
  have e1 : F64.gt (approveRatio (ProposalQueueHead (exState 3 1 3 1))) exApp.quorum
      = true := by decide!
  have e2 : approveRatio (ProposalQueueHead (exState 2 2 2 2)) = exApp.quorum := by decide!
  exact ⟨⟨e1, h1.1.mpr e1⟩, ⟨e2, h2.2.2 e2⟩⟩

/-- C2: settling a non-empty, due, active head ballot makes exactly one sponsor credit,
followed only by the credits of the vote loop. If approve wins it is made to the owner,
of `int64(float64(bond) * dispensationPct)`; if deny wins it is made to the challenger,
of `bond + int64(float64(bond) * dispensationPct)`. -/
theorem endBlocker_sponsor_reward (app : RegistryApp) (s : State)
    (hid : (ProposalQueueHead s).Identifier ≠ [])
    (hdue : (ProposalQueueHead s).EndApplyBlockStamp ≤ s.height)
    (hact : (ProposalQueueHead s).Active = true) :
    (F64.gt (approveRatio (ProposalQueueHead s)) app.quorum = true →
        (endBlocker app s).credits
          = s.credits
            ++ [((ProposalQueueHead s).Owner,
                F64.toInt64 (F64.mul (F64.ofInt (ProposalQueueHead s).Bond)
                  app.dispensationPct))]
            ++ voteCredits app (ProposalQueueHead s) true
                (F64.ofInt (ProposalQueueHead s).Approve)
                (voteEntries s (ProposalQueueHead s).Identifier))
      ∧ (F64.gt (approveRatio (ProposalQueueHead s)) app.quorum = false →
        (endBlocker app s).credits
          = s.credits
            ++ [((ProposalQueueHead s).Challenger,
                add64 (ProposalQueueHead s).Bond
                  (F64.toInt64 (F64.mul (F64.ofInt (ProposalQueueHead s).Bond)
                    app.dispensationPct)))]
            ++ voteCredits app (ProposalQueueHead s) false
                (F64.ofInt (ProposalQueueHead s).Deny)
                (voteEntries s (ProposalQueueHead s).Identifier)) := by
  constructor
  · intro hq
    rw [(endBlocker_approve_effects app s hid hdue hact hq).2.1]
    simp [sponsorDividend]
  · intro hq
    rw [(endBlocker_deny_effects app s hid hdue hact hq).2.2.1]
    simp [sponsorDividend]

/-- Witness of C2: with bond `100` and dividend rate `1/4`, the owner is credited `25`
when approve wins (`3` to `1`) and the challenger `125` when deny wins (`1` to `3`);
the credits that follow are those of the two voters. -/
theorem endBlocker_sponsor_reward_witness :
    (endBlocker exApp (exState 3 1 3 1)).credits = [(['o'], 25), (['A'], 28), (['B'], 1)]
      ∧ (endBlocker exApp (exState 1 3 1 3)).credits
        = [(['c'], 125), (['A'], 1), (['B'], 28)] := by
  have h1 := (endBlocker_sponsor_reward exApp (exState 3 1 3 1) (by decide) (by decide)
    (by decide)).1 (by decide!)
  have h2 := (endBlocker_sponsor_reward exApp (exState 1 3 1 3) (by decide) (by decide)
    (by decide)).2 (by decide!)
  constructor
  · rw [h1]; decide!
  · rw [h2]; decide!

theorem queue_ne_nil_of_head (s : State) (hid : (ProposalQueueHead s).Identifier ≠ []) :
    s.queue ≠ [] := by
  intro h
  apply hid
  unfold ProposalQueueHead
  rw [h]

/-- C4: `endBlocker` returns the state unchanged when the queue head is the empty sentinel
or the height is below the head's `EndApplyBlockStamp`; and when the head is non-empty and
the height has reached `EndApplyBlockStamp` (equality included) it pops the head off the
queue and resolves it: the listing with `0` votes for an unchallenged head, the
approve-wins or the deny-wins outcome for an active one. -/
theorem endBlocker_gate (app : RegistryApp) (s : State) :
    (((ProposalQueueHead s).Identifier = []
        ∨ s.height < (ProposalQueueHead s).EndApplyBlockStamp) → endBlocker app s = s)
      ∧ ((ProposalQueueHead s).Identifier ≠ [] →
          (ProposalQueueHead s).EndApplyBlockStamp ≤ s.height →
          s.queue ≠ [] ∧ (endBlocker app s).queue = s.queue.tail
            ∧ ((ProposalQueueHead s).Active = false →
                (endBlocker app s).listings
                  = s.listings.set (ProposalQueueHead s).Identifier
                      { Identifier := (ProposalQueueHead s).Identifier, Votes := 0 })
            ∧ ((ProposalQueueHead s).Active = true →
                ApproveWins s (endBlocker app s) (ProposalQueueHead s)
                  ∨ DenyWins s (endBlocker app s) (ProposalQueueHead s))) := by
  refine ⟨endBlocker_idle app s, ?_⟩
  intro hid hdue
  refine ⟨queue_ne_nil_of_head s hid, ?_, ?_, ?_⟩
  · cases hact : (ProposalQueueHead s).Active
    · rw [endBlocker_inactive app s hid hdue hact]; rfl
    · cases hq : F64.gt (approveRatio (ProposalQueueHead s)) app.quorum
      · exact (endBlocker_deny_effects app s hid hdue hact hq).2.2.2.1
      · exact (endBlocker_approve_effects app s hid hdue hact hq).2.2.1
  · intro hact
    rw [endBlocker_inactive app s hid hdue hact]; rfl
  · intro hact
    cases hq : F64.gt (approveRatio (ProposalQueueHead s)) app.quorum
    · have h := endBlocker_deny_effects app s hid hdue hact hq
      exact Or.inr ⟨h.1, h.2.1, _, _, h.2.2.1⟩
    · have h := endBlocker_approve_effects app s hid hdue hact hq
      exact Or.inl ⟨h.1, _, _, h.2.1⟩

/-- Witness of C4: the pending ballot due at height `21` is left alone at height `20`,
and the one due at height `20` is popped and listed at height `20`. -/
theorem endBlocker_gate_witness :
    endBlocker exApp (exPending 21) = exPending 21
      ∧ (endBlocker exApp (exPending 20)).queue = []
      ∧ (endBlocker exApp (exPending 20)).listings = ⟨[(['X'], ⟨['X'], 0⟩)]⟩ := by
  have h1 := (endBlocker_gate exApp (exPending 21)).1 (Or.inr (by decide))
  have h2 := (endBlocker_gate exApp (exPending 20)).2 (by decide) (by decide)
  refine ⟨h1, h2.2.1, ?_⟩
  rw [h2.2.2.1 (by decide)]
  decide

/-- C5: for a non-empty, due head ballot that is not active, `endBlocker` stores the
listing `{identifier, votes: 0}` under the identifier and makes no credit at all, for
every tally and every content of the ballots store. -/
theorem endBlocker_unchallenged (app : RegistryApp) (s : State)
    (hid : (ProposalQueueHead s).Identifier ≠ [])
    (hdue : (ProposalQueueHead s).EndApplyBlockStamp ≤ s.height)
    (hact : (ProposalQueueHead s).Active = false) :
    GetListing (endBlocker app s) (ProposalQueueHead s).Identifier
        = { Identifier := (ProposalQueueHead s).Identifier, Votes := 0 }
      ∧ (endBlocker app s).listings
        = s.listings.set (ProposalQueueHead s).Identifier
            { Identifier := (ProposalQueueHead s).Identifier, Votes := 0 }
      ∧ (endBlocker app s).credits = s.credits
      ∧ ∀ addr, GetCoins (endBlocker app s) addr = GetCoins s addr := by
  rw [endBlocker_inactive app s hid hdue hact]
  refine ⟨?_, rfl, rfl, fun _ => rfl⟩
  simp [GetListing, AddListing, ProposalQueuePop, KVStore.get_set_self]

/-- Witness of C5: the unchallenged ballot with tallies `5` and `7` and two vote records
is listed with `0` votes, and the ledger keeps its single earlier credit. -/
theorem endBlocker_unchallenged_witness :
    GetListing (endBlocker exApp (exPending 20)) ['X'] = ⟨['X'], 0⟩
      ∧ (endBlocker exApp (exPending 20)).credits = [(['o'], 1)] := by
  have h := endBlocker_unchallenged exApp (exPending 20) (by decide) (by decide) (by decide)
  exact ⟨h.1, h.2.2.1⟩

/-! ## Signs of `float64` results -/

theorem pow2_pos (e : Int) : 0 < pow2 e := by
  unfold pow2
  split
  · positivity
  · positivity

theorem roundEven_nonneg (m : ℚ) (h : 0 ≤ m) : 0 ≤ roundEven m := by
  have hf : 0 ≤ m.num / (m.den : Int) :=
    Int.ediv_nonneg (Rat.num_nonneg.mpr h) (Int.ofNat_nonneg _)
  unfold roundEven
  simp only []
  split
  · exact hf
  · split
    · omega
    · split
      · exact hf
      · omega

theorem roundF64_notNeg (q : ℚ) (h : 0 ≤ q) : F64.NotNeg (roundF64 q) := by
  unfold roundF64
  by_cases h0 : q = 0
  · simp [h0, F64.NotNeg]
  · have hpos : 0 < q := lt_of_le_of_ne h (Ne.symm h0)
    simp only [h0, if_false, hpos, if_true]
    split
    · trivial
    · show (0 : ℚ) ≤ _
      apply mul_nonneg
      · exact_mod_cast roundEven_nonneg _ (div_nonneg (abs_nonneg q) (le_of_lt (pow2_pos _)))
      · exact le_of_lt (pow2_pos _)

namespace F64

theorem ofInt_notNeg (n : Int) (h : 0 ≤ n) : NotNeg (ofInt n) :=
  roundF64_notNeg _ (by exact_mod_cast h)

theorem notNeg_of_le (x : F64) (h : le (fin 0) x = true) : NotNeg x := by
  cases x with
  | nan => trivial
  | pinf => trivial
  | ninf => simp [le] at h
  | fin q => simpa [le, NotNeg] using h

theorem div_notNeg (x y : F64) (hx : NotNeg x) (hy : NotNeg y) : NotNeg (div x y) := by
  cases x with
  | nan => cases y <;> trivial
  | ninf => exact absurd hx (by simp [NotNeg])
  | pinf =>
    cases y with
    | nan => trivial
    | pinf => trivial
    | ninf => trivial
    | fin b =>
      have hb : (0 : ℚ) ≤ b := hy
      simp [div, hb, NotNeg]
  | fin a =>
    have ha : (0 : ℚ) ≤ a := hx
    cases y with
    | nan => trivial
    | pinf => simp [div, NotNeg]
    | ninf => simp [div, NotNeg]
    | fin b =>
      have hb : (0 : ℚ) ≤ b := hy
      unfold div
      simp only []
      split
      · split
        · trivial
        · split
          · trivial
          · rename_i h1 h2
            exact absurd (lt_of_le_of_ne ha (Ne.symm h1)) h2
      · exact roundF64_notNeg _ (div_nonneg ha hb)

theorem mul_notNeg (x y : F64) (hx : NotNeg x) (hy : NotNeg y) : NotNeg (mul x y) := by
  cases x with
  | nan => cases y <;> trivial
  | ninf => exact absurd hx (by simp [NotNeg])
  | pinf =>
    cases y with
    | nan => trivial
    | pinf => simp [mul, sgn, NotNeg]
    | ninf => exact absurd hy (by simp [NotNeg])
    | fin b =>
      have hb : (0 : ℚ) ≤ b := hy
      by_cases hb0 : 0 < b
      · simp [mul, sgn, hb0, NotNeg]
      · have : ¬ b < 0 := not_lt.mpr hb
        simp [mul, sgn, hb0, this, NotNeg]
  | fin a =>
    have ha : (0 : ℚ) ≤ a := hx
    cases y with
    | nan => trivial
    | pinf =>
      by_cases ha0 : 0 < a
      · simp [mul, sgn, ha0, NotNeg]
      · have : ¬ a < 0 := not_lt.mpr ha
        simp [mul, sgn, ha0, this, NotNeg]
    | ninf => exact absurd hy (by simp [NotNeg])
    | fin b =>
      have hb : (0 : ℚ) ≤ b := hy
      exact roundF64_notNeg _ (mul_nonneg ha hb)

theorem toInt64_nonneg (x : F64) (hx : NotNeg x) (hfit : FitsInt64 x) : 0 ≤ toInt64 x := by
  cases x with
  | nan => exact absurd hfit (by simp [FitsInt64])
  | pinf => exact absurd hfit (by simp [FitsInt64])
  | ninf => exact absurd hfit (by simp [FitsInt64])
  | fin q =>
    have hq : (0 : ℚ) ≤ q := hx
    have hin : InInt64 (truncQ q) := hfit
    simp only [toInt64, hin, if_true]
    simp only [truncQ, hq, if_true]
    exact Int.floor_nonneg.mpr hq

end F64

theorem wrap64_of_inInt64 (x : Int) (h : InInt64 x) : wrap64 x = x := by
  unfold InInt64 at h
  unfold wrap64
  omega

/-! ## Values of the `float64` model -/

theorem roundF64_one_third :
    roundF64 (1 / 3) = .fin (6004799503160661 / 18014398509481984) := by decide!

theorem roundF64_ties_to_even :
    roundF64 (2 ^ 53 + 1) = .fin (2 ^ 53) ∧ roundF64 (2 ^ 53 + 3) = .fin (2 ^ 53 + 4) := by
  constructor <;> decide!

theorem roundF64_overflow :
    roundF64 (2 ^ 1024 - 2 ^ 970) = .pinf
      ∧ roundF64 (2 ^ 1024 - 2 ^ 970 - 1) = .fin (2 ^ 1024 - 2 ^ 971) := by
  constructor <;> decide!

theorem roundF64_subnormal :
    roundF64 (3 / 2 ^ 1075) = .fin (2 / 2 ^ 1074) ∧ roundF64 (1 / 2 ^ 1075) = .fin 0 := by
  constructor <;> decide!

theorem F64.ofInt_max_int64 :
    F64.ofInt 9223372036854775807 = .fin 9223372036854775808 := by decide!

/-! ## Settlement: the vote loop -/

theorem drop_eq_and_isPrefixOf (pfx voter key : Bytes) :
    (decide (key.drop pfx.length = voter) && pfx.isPrefixOf key)
      = decide (key = pfx ++ voter) := by
  by_cases hp : pfx <+: key
  · obtain ⟨t, rfl⟩ := hp
    have h1 : pfx.isPrefixOf (pfx ++ t) = true := List.isPrefixOf_iff_prefix.mpr ⟨t, rfl⟩
    simp [h1]
  · have h1 : pfx.isPrefixOf key = false := by
      rw [Bool.eq_false_iff]
      intro h
      exact hp (List.isPrefixOf_iff_prefix.mp h)
    have h2 : ¬ key = pfx ++ voter := fun h => hp ⟨voter, h.symm⟩
    simp [h1, h2]

theorem filter_key_of_uniqueKeys {V : Type} (l : List (Bytes × V)) (k : Bytes) (x : V)
    (hu : (l.map Prod.fst).Nodup) (hm : (k, x) ∈ l) :
    l.filter (fun e => decide (e.1 = k)) = [(k, x)] := by
  induction l with
  | nil => simp at hm
  | cons e rest ih =>
    rw [List.map_cons, List.nodup_cons] at hu
    rcases List.mem_cons.mp hm with h | h
    · subst h
      have hnil : rest.filter (fun e => decide (e.1 = k)) = [] := by
        rw [List.filter_eq_nil_iff]
        intro a ha
        have hak : a.1 ≠ k := by
          intro h2
          have hmem : a.1 ∈ rest.map Prod.fst := List.mem_map_of_mem Prod.fst ha
          rw [h2] at hmem
          exact hu.1 hmem
        simpa using hak
      simp [List.filter, hnil]
    · have hne : ¬ e.1 = k := by
        intro he
        have hmem : (k, x).1 ∈ rest.map Prod.fst := List.mem_map_of_mem Prod.fst h
        rw [← he] at hmem
        exact hu.1 hmem
      simp [List.filter, hne, ih hu.2 h]

theorem voteCredits_filter (app : RegistryApp) (ballot : Ballot) (c : Bool) (pool : F64)
    (s : State) (voter : Bytes) (v : Vote) (hu : s.ballots.UniqueKeys)
    (hm : (ballot.Identifier ++ votesTag ++ voter, Record.vote v) ∈ s.ballots.entries) :
    (voteCredits app ballot c pool (voteEntries s ballot.Identifier)).filter
        (fun cr => decide (cr.1 = voter))
      = [(voter, votePayout app ballot c pool v)] := by
  unfold voteCredits voteEntries KVStore.prefixIterator
  rw [List.filter_map, List.filter_filter]
  have hc : ∀ e ∈ s.ballots.entries,
      (((fun cr : Bytes × Int => decide (cr.1 = voter)) ∘
          (fun kv : Bytes × Record =>
            (kv.1.drop (ballot.Identifier ++ votesTag).length,
              votePayout app ballot c pool (decodeVote kv.2)))) e
        && (ballot.Identifier ++ votesTag).isPrefixOf e.1)
      = decide (e.1 = ballot.Identifier ++ votesTag ++ voter) := by
    intro e _
    exact drop_eq_and_isPrefixOf (ballot.Identifier ++ votesTag) voter e.1
  rw [List.filter_congr hc, filter_key_of_uniqueKeys _ _ _ hu hm]
  simp [decodeVote]

theorem endBlocker_credits (app : RegistryApp) (s : State)
    (hid : (ProposalQueueHead s).Identifier ≠ [])
    (hdue : (ProposalQueueHead s).EndApplyBlockStamp ≤ s.height)
    (hact : (ProposalQueueHead s).Active = true) :
    ∃ sponsor, (endBlocker app s).credits
      = s.credits ++ sponsor :: voteCredits app (ProposalQueueHead s)
          (correctVote app (ProposalQueueHead s))
          (F64.ofInt (poolTally app (ProposalQueueHead s)))
          (voteEntries s (ProposalQueueHead s).Identifier) := by
  cases hq : F64.gt (approveRatio (ProposalQueueHead s)) app.quorum
  · refine ⟨((ProposalQueueHead s).Challenger,
      add64 (ProposalQueueHead s).Bond (sponsorDividend app (ProposalQueueHead s))), ?_⟩
    rw [(endBlocker_deny_effects app s hid hdue hact hq).2.2.1]
    simp [correctVote, poolTally, hq]
  · refine ⟨((ProposalQueueHead s).Owner, sponsorDividend app (ProposalQueueHead s)), ?_⟩
    rw [(endBlocker_approve_effects app s hid hdue hact hq).2.1]
    simp [correctVote, poolTally, hq]

theorem votePayout_ge (app : RegistryApp) (ballot : Ballot) (c : Bool) (tally : Int)
    (v : Vote) (hp : 0 ≤ v.Power) (hb : 0 ≤ ballot.Bond)
    (hd : F64.le (.fin 0) app.dispensationPct = true) (ht : 0 < tally)
    (hfit : F64.FitsInt64 (voterShare app ballot (F64.ofInt tally) v.Power))
    (hsum : v.Power + F64.toInt64 (voterShare app ballot (F64.ofInt tally) v.Power) < 2 ^ 63) :
    v.Power ≤ votePayout app ballot c (F64.ofInt tally) v := by
  unfold votePayout
  split
  · have hnn : 0 ≤ F64.toInt64 (voterShare app ballot (F64.ofInt tally) v.Power) := by
      apply F64.toInt64_nonneg _ _ hfit
      unfold voterShare
      apply F64.mul_notNeg
      · apply F64.mul_notNeg
        · apply F64.div_notNeg
          · exact F64.ofInt_notNeg _ hp
          · exact F64.ofInt_notNeg _ (le_of_lt ht)
        · exact F64.ofInt_notNeg _ hb
      · exact F64.notNeg_of_le _ hd
    unfold add64 voterDividend
    rw [wrap64_of_inInt64]
    · omega
    · unfold InInt64
      omega
  · exact le_refl _

/-- C3, as amended: when a non-empty, due, active head ballot is settled, the credits
made after the sponsor credit are those of the vote loop, and a vote record
`(voter, choice, power)` stored under the ballot is credited exactly once there: with
`power + int64(float64(power) / pool * float64(bond) * dispensationPct)` when `choice` is
the winning side (`pool` is the conversion of `approve` if approve won, of `deny`
otherwise) and with `power` when it is the losing side. For `power >= 0`, `bond >= 0`,
`dispensationPct >= 0` and a positive pool, and provided the `float64` dividend converts
to `int64` within range and `power` plus the dividend stays below `2^63`, the credit is
at least `power`. -/
theorem endBlocker_voter_payout (app : RegistryApp) (s : State)
    (hid : (ProposalQueueHead s).Identifier ≠ [])
    (hdue : (ProposalQueueHead s).EndApplyBlockStamp ≤ s.height)
    (hact : (ProposalQueueHead s).Active = true)
    (huniq : s.ballots.UniqueKeys) (voter : Bytes) (v : Vote)
    (hmem : ((ProposalQueueHead s).Identifier ++ votesTag ++ voter, Record.vote v)
      ∈ s.ballots.entries) :
    (∃ sponsor, (endBlocker app s).credits
        = s.credits ++ sponsor :: voteCredits app (ProposalQueueHead s)
            (correctVote app (ProposalQueueHead s))
            (F64.ofInt (poolTally app (ProposalQueueHead s)))
            (voteEntries s (ProposalQueueHead s).Identifier))
      ∧ (voteCredits app (ProposalQueueHead s) (correctVote app (ProposalQueueHead s))
            (F64.ofInt (poolTally app (ProposalQueueHead s)))
            (voteEntries s (ProposalQueueHead s).Identifier)).filter
          (fun cr => decide (cr.1 = voter))
        = [(voter, votePayout app (ProposalQueueHead s)
            (correctVote app (ProposalQueueHead s))
            (F64.ofInt (poolTally app (ProposalQueueHead s))) v)]
      ∧ (v.Choice = correctVote app (ProposalQueueHead s) →
          votePayout app (ProposalQueueHead s) (correctVote app (ProposalQueueHead s))
              (F64.ofInt (poolTally app (ProposalQueueHead s))) v
            = add64 v.Power
                (F64.toInt64
                  (F64.mul
                    (F64.mul
                      (F64.div (F64.ofInt v.Power)
                        (F64.ofInt (poolTally app (ProposalQueueHead s))))
                      (F64.ofInt (ProposalQueueHead s).Bond))
                    app.dispensationPct)))
      ∧ (v.Choice ≠ correctVote app (ProposalQueueHead s) →
          votePayout app (ProposalQueueHead s) (correctVote app (ProposalQueueHead s))
              (F64.ofInt (poolTally app (ProposalQueueHead s))) v
            = v.Power)
      ∧ (0 ≤ v.Power → 0 ≤ (ProposalQueueHead s).Bond →
          F64.le (.fin 0) app.dispensationPct = true →
          0 < poolTally app (ProposalQueueHead s) →
          F64.FitsInt64 (voterShare app (ProposalQueueHead s)
            (F64.ofInt (poolTally app (ProposalQueueHead s))) v.Power) →
          v.Power + F64.toInt64 (voterShare app (ProposalQueueHead s)
            (F64.ofInt (poolTally app (ProposalQueueHead s))) v.Power) < 2 ^ 63 →
          v.Power ≤ votePayout app (ProposalQueueHead s)
            (correctVote app (ProposalQueueHead s))
            (F64.ofInt (poolTally app (ProposalQueueHead s))) v) := by
  refine ⟨endBlocker_credits app s hid hdue hact,
    voteCredits_filter app _ _ _ s voter v huniq hmem, ?_, ?_, ?_⟩
  · intro hc
    have hc2 : (correctVote app (ProposalQueueHead s) == v.Choice) = true := by
      rw [hc]; simp
    simp only [votePayout, hc2, if_true]
    rfl
  · intro hc
    have hc2 : (correctVote app (ProposalQueueHead s) == v.Choice) = false := by
      rw [beq_eq_false_iff_ne]
      exact fun h => hc h.symm
    simp [votePayout, hc2]
  · intro hp hb hd ht hfit hsum
    exact votePayout_ge app _ _ _ v hp hb hd ht hfit hsum

/-- Witness of C3: with tallies `3` to `1`, bond `100` and dividend rate `1/4`, the
approving voter `"A"` with power `3` is credited once, `3 + 25 = 28`. -/
theorem endBlocker_voter_payout_witness :
    (voteCredits exApp (ProposalQueueHead (exState 3 1 3 1))
          (correctVote exApp (ProposalQueueHead (exState 3 1 3 1)))
          (F64.ofInt (poolTally exApp (ProposalQueueHead (exState 3 1 3 1))))
          (voteEntries (exState 3 1 3 1) (ProposalQueueHead (exState 3 1 3 1)).Identifier)).filter
        (fun cr => decide (cr.1 = ['A']))
      = [(['A'], 28)]
      ∧ (3 : Int) ≤ 28 := by
  have h := endBlocker_voter_payout exApp (exState 3 1 3 1) (by decide) (by decide)
    (by decide) (by decide) ['A'] ⟨true, 3⟩ (by decide)
  have hv : votePayout exApp (ProposalQueueHead (exState 3 1 3 1))
      (correctVote exApp (ProposalQueueHead (exState 3 1 3 1)))
      (F64.ofInt (poolTally exApp (ProposalQueueHead (exState 3 1 3 1)))) ⟨true, 3⟩ = 28 := by
    decide!
  have h5 := h.2.2.2.2 (by decide) (by decide) (by decide!) (by decide!) (by decide!)
    (by decide!)
  rw [hv] at h5
  refine ⟨?_, h5⟩
  rw [h.2.1, hv]

/-- Counterexample to C3 as stated: the head ballot `"X"` is active and due with bond `1`,
dividend rate `1` and tallies `2^63 - 1` to `0`; approve wins and the pool is positive.
The approving vote of `"A"` has power `2^63 - 1`; its dividend is `1`, the `int64` sum
wraps, and `"A"` is credited `-2^63`, less than the power locked. -/
theorem endBlocker_voter_payout_counterexample :
    (ProposalQueueHead exMaxState).Identifier ≠ []
      ∧ (ProposalQueueHead exMaxState).EndApplyBlockStamp ≤ exMaxState.height
      ∧ (ProposalQueueHead exMaxState).Active = true
      ∧ exMaxState.ballots.UniqueKeys
      ∧ ((ProposalQueueHead exMaxState).Identifier ++ votesTag ++ ['A'],
          Record.vote ⟨true, 9223372036854775807⟩) ∈ exMaxState.ballots.entries
      ∧ correctVote exMaxApp (ProposalQueueHead exMaxState) = true
      ∧ (0 : Int) ≤ 9223372036854775807
      ∧ 0 ≤ (ProposalQueueHead exMaxState).Bond
      ∧ F64.le (.fin 0) exMaxApp.dispensationPct = true
      ∧ 0 < poolTally exMaxApp (ProposalQueueHead exMaxState)
      ∧ (endBlocker exMaxApp exMaxState).credits
        = [(['o'], 1), (['A'], -9223372036854775808)]
      ∧ (-9223372036854775808 : Int) < 9223372036854775807 := by
  refine ⟨by decide, by decide, by decide, by decide, by decide, by decide!, by decide,
    by decide, by decide!, by decide!, by decide!, by decide⟩

/-! ## The keeper: `ActivateBallot` and `VoteBallot` -/

theorem wrap64_lt (x : Int) : wrap64 x < 2 ^ 63 := by
  unfold wrap64
  omega

theorem ledgerStep_range (addr : Bytes) (balance : Int) (c : Bytes × Int)
    (h : 0 ≤ balance ∧ balance < 2 ^ 63) :
    0 ≤ ledgerStep addr balance c ∧ ledgerStep addr balance c < 2 ^ 63 := by
  unfold ledgerStep
  split
  · next hc => exact ⟨hc.2, wrap64_lt _⟩
  · exact h

theorem foldl_ledgerStep_range (addr : Bytes) (calls : List (Bytes × Int)) (balance : Int)
    (h : 0 ≤ balance ∧ balance < 2 ^ 63) :
    0 ≤ calls.foldl (ledgerStep addr) balance
      ∧ calls.foldl (ledgerStep addr) balance < 2 ^ 63 := by
  induction calls generalizing balance with
  | nil => exact h
  | cons c rest ih => exact ih _ (ledgerStep_range addr balance c h)

/-- A balance of the ledger is never negative and is an `int64`. -/
theorem GetCoins_range (s : State) (addr : Bytes) :
    0 ≤ GetCoins s addr ∧ GetCoins s addr < 2 ^ 63 :=
  foldl_ledgerStep_range addr s.credits 0 (by norm_num)

theorem GetCoins_AddCoins (s : State) (addr dest : Bytes) (amount : Int) :
    GetCoins (AddCoins s dest amount).1 addr
      = ledgerStep addr (GetCoins s addr) (dest, amount) := by
  simp [GetCoins, AddCoins, creditedTo, List.foldl_append]

/-- The ledger accepts a credit when the balance after it is within `0 .. 2^63 - 1`;
the balance of the address then grows by the amount, and no other balance changes. -/
theorem AddCoins_accept (s : State) (addr : Bytes) (amount : Int)
    (h0 : 0 ≤ GetCoins s addr + amount) (h1 : GetCoins s addr + amount < 2 ^ 63) :
    (AddCoins s addr amount).2 = none
      ∧ GetCoins (AddCoins s addr amount).1 addr = GetCoins s addr + amount
      ∧ ∀ other, other ≠ addr →
          GetCoins (AddCoins s addr amount).1 other = GetCoins s other := by
  have hsum : add64 (GetCoins s addr) amount = GetCoins s addr + amount :=
    wrap64_of_inInt64 _ ⟨by omega, h1⟩
  refine ⟨?_, ?_, ?_⟩
  · simp [AddCoins, hsum, h0]
  · rw [GetCoins_AddCoins]
    simp [ledgerStep, hsum, h0]
  · intro other hne
    rw [GetCoins_AddCoins]
    have hne2 : ¬ addr = other := fun h => hne h.symm
    simp [ledgerStep, hne2]

/-- The ledger rejects a credit of an `int64` amount that would leave a negative balance,
or one of `2^63` or more, with the error of code `10`, and no balance changes. -/
theorem AddCoins_reject (s : State) (addr : Bytes) (amount : Int) (ha : InInt64 amount)
    (h : GetCoins s addr + amount < 0 ∨ 2 ^ 63 ≤ GetCoins s addr + amount) :
    (AddCoins s addr amount).2 = some { codespace := 1, code := 10 }
      ∧ ∀ other, GetCoins (AddCoins s addr amount).1 other = GetCoins s other := by
  have hr := GetCoins_range s addr
  have hneg : ¬ 0 ≤ add64 (GetCoins s addr) amount := by
    unfold InInt64 at ha
    unfold add64 wrap64
    omega
  refine ⟨?_, ?_⟩
  · simp [AddCoins, hneg]
  · intro other
    rw [GetCoins_AddCoins]
    unfold ledgerStep
    by_cases hd : addr = other
    · subst hd
      simp [hneg]
    · simp [hd]

/-- On the stale-bond path `ActivateBallot` deletes the ballot, makes the refund call and
returns what the ledger returns. -/
theorem ActivateBallot_refund_path (s : State) (owner challenger identifier : Bytes)
    (commitLen revealLen minBond challengeBond : Int) (b : Ballot)
    (hg : GetBallot s identifier = some b) (hmin : b.Bond < minBond) :
    ActivateBallot s owner challenger identifier commitLen revealLen minBond challengeBond
      = some (AddCoins (DeleteBallot s identifier) challenger challengeBond) := by
  unfold ActivateBallot
  rw [hg]
  simp only [hmin, if_true]
  rcases h : AddCoins (DeleteBallot s identifier) challenger challengeBond with ⟨s2, _ | e⟩
    <;> rfl

/-- C6: when the ballot `b` stored under `identifier` has `b.Bond >= minBond` and
`b.Bond == challengeBond`, `ActivateBallot` at height `h` returns no error, and afterwards
`GetBallot(identifier)` is `b` with `Active = true`, `Challenger` the given challenger,
`EndCommitBlockStamp = h + commitLen` and `EndApplyBlockStamp = h + commitLen + revealLen`
(`int64` sums), every other field as in `b`; no credit is made and nothing else
changes. -/
theorem ActivateBallot_activates (s : State) (owner challenger identifier : Bytes)
    (commitLen revealLen minBond challengeBond : Int) (b : Ballot)
    (hb : s.ballots.get identifier = some (.ballot b))
    (hmin : minBond ≤ b.Bond) (heq : b.Bond = challengeBond) :
    ∃ s1, ActivateBallot s owner challenger identifier commitLen revealLen minBond
          challengeBond = some (s1, none)
      ∧ GetBallot s1 identifier
        = some { b with
            Active := true
            Challenger := challenger
            EndCommitBlockStamp := add64 s.height commitLen
            EndApplyBlockStamp := add64 (add64 s.height commitLen) revealLen }
      ∧ s1.credits = s.credits
      ∧ (∀ addr, GetCoins s1 addr = GetCoins s addr)
      ∧ s1.listings = s.listings ∧ s1.queue = s.queue ∧ s1.height = s.height := by
  have hg : GetBallot s identifier = some b := by
    simp [GetBallot, hb, decodeBallot]
  subst heq
  refine ⟨{ s with ballots := s.ballots.set identifier (.ballot { b with
      Active := true
      Challenger := challenger
      EndCommitBlockStamp := add64 s.height commitLen
      EndApplyBlockStamp := add64 (add64 s.height commitLen) revealLen }) },
    ?_, ?_, rfl, fun _ => rfl, rfl, rfl, rfl⟩
  · unfold ActivateBallot
    rw [hg]
    simp [not_lt.mpr hmin]
  · simp [GetBallot, KVStore.get_set_self, decodeBallot]

/-- Witness of C6: the pending ballot with bond `150`, challenged with bond `150` at
height `10` under a minimum of `100` and windows of `10` and `10`, becomes active with
commit end `20` and apply end `30`. -/
theorem ActivateBallot_activates_witness :
    ∃ s1, ActivateBallot (exProposed 150) ['o'] ['c'] ['X'] 10 10 100 150 = some (s1, none)
      ∧ GetBallot s1 ['X']
        = some { Identifier := ['X'], Owner := ['o'], Challenger := ['c'], Active := true,
                 Bond := 150, EndApplyBlockStamp := 30, EndCommitBlockStamp := 20,
                 Approve := 0, Deny := 0 }
      ∧ s1.credits = [(['c'], 7)] := by
  obtain ⟨s1, h1, h2, h3, _⟩ := ActivateBallot_activates (exProposed 150) ['o'] ['c'] ['X']
    10 10 100 150 (exProposedBallot 150) (by decide) (by decide) (by decide)
  refine ⟨s1, h1, ?_, h3⟩
  rw [h2]
  decide

/-- C7: when the ballot `b` stored under `identifier` has `b.Bond >= minBond` and
`challengeBond != b.Bond`, `ActivateBallot` returns the error with code `115` and the
state it ran on, unchanged: `GetBallot(identifier)` is still `b`. -/
theorem ActivateBallot_bond_mismatch (s : State) (owner challenger identifier : Bytes)
    (commitLen revealLen minBond challengeBond : Int) (b : Ballot)
    (hb : s.ballots.get identifier = some (.ballot b))
    (hmin : minBond ≤ b.Bond) (hne : challengeBond ≠ b.Bond) :
    ActivateBallot s owner challenger identifier commitLen revealLen minBond challengeBond
        = some (s, some { codespace := 2, code := 115 })
      ∧ GetBallot s identifier = some b := by
  have hg : GetBallot s identifier = some b := by
    simp [GetBallot, hb, decodeBallot]
  refine ⟨?_, hg⟩
  unfold ActivateBallot
  rw [hg]
  have hne2 : b.Bond ≠ challengeBond := fun h => hne h.symm
  simp [not_lt.mpr hmin, hne2]

/-- Witness of C7: the pending ballot with bond `150` rejects the challenge bonds `100`
and `200` under a minimum of `100`, with code `115` and no change. -/
theorem ActivateBallot_bond_mismatch_witness :
    ActivateBallot (exProposed 150) ['o'] ['c'] ['X'] 10 10 100 100
        = some (exProposed 150, some { codespace := 2, code := 115 })
      ∧ ActivateBallot (exProposed 150) ['o'] ['c'] ['X'] 10 10 100 200
        = some (exProposed 150, some { codespace := 2, code := 115 }) :=
  ⟨(ActivateBallot_bond_mismatch (exProposed 150) ['o'] ['c'] ['X'] 10 10 100 100
      (exProposedBallot 150) (by decide) (by decide) (by decide)).1,
    (ActivateBallot_bond_mismatch (exProposed 150) ['o'] ['c'] ['X'] 10 10 100 200
      (exProposedBallot 150) (by decide) (by decide) (by decide)).1⟩

/-- C8, as amended: when the ballot `b` stored under `identifier` has `b.Bond < minBond`,
`ActivateBallot` deletes it and then does what the ledger does with the refund, for every
`challengeBond`. When the challenger's balance plus `challengeBond` is within
`0 .. 2^63 - 1` the ledger accepts: `ActivateBallot` returns no error, `GetBallot(identifier)`
is the zero-value ballot, the single call made is the credit of `challengeBond`, the
challenger's balance has grown by exactly `challengeBond` and every other balance is as
before. Otherwise (`challengeBond` being an `int64`) the ledger rejects: `ActivateBallot`
returns the ledger's error, code `10`, `GetBallot(identifier)` is the zero-value ballot all
the same, and no balance changes. -/
theorem ActivateBallot_stale_bond (s : State) (owner challenger identifier : Bytes)
    (commitLen revealLen minBond challengeBond : Int) (b : Ballot)
    (hb : s.ballots.get identifier = some (.ballot b))
    (hmin : b.Bond < minBond) :
    (0 ≤ GetCoins s challenger + challengeBond →
        GetCoins s challenger + challengeBond < 2 ^ 63 →
        ∃ s1, ActivateBallot s owner challenger identifier commitLen revealLen minBond
              challengeBond = some (s1, none)
          ∧ GetBallot s1 identifier = some {}
          ∧ s1.credits = s.credits ++ [(challenger, challengeBond)]
          ∧ GetCoins s1 challenger = GetCoins s challenger + challengeBond
          ∧ ∀ addr, addr ≠ challenger → GetCoins s1 addr = GetCoins s addr)
      ∧ (InInt64 challengeBond →
        (GetCoins s challenger + challengeBond < 0
            ∨ 2 ^ 63 ≤ GetCoins s challenger + challengeBond) →
        ∃ s1, ActivateBallot s owner challenger identifier commitLen revealLen minBond
              challengeBond = some (s1, some { codespace := 1, code := 10 })
          ∧ GetBallot s1 identifier = some {}
          ∧ ∀ addr, GetCoins s1 addr = GetCoins s addr) := by
  have hg : GetBallot s identifier = some b := by
    simp [GetBallot, hb, decodeBallot]
  have hact := ActivateBallot_refund_path s owner challenger identifier commitLen revealLen
    minBond challengeBond b hg hmin
  have hdel : GetBallot (AddCoins (DeleteBallot s identifier) challenger challengeBond).1
      identifier = some {} := by
    simp [GetBallot, AddCoins, DeleteBallot, KVStore.get_delete_self]
  have hbal : ∀ addr, GetCoins (DeleteBallot s identifier) addr = GetCoins s addr :=
    fun _ => rfl
  constructor
  · intro h0 h1
    have h := AddCoins_accept (DeleteBallot s identifier) challenger challengeBond
      (by rw [hbal]; exact h0) (by rw [hbal]; exact h1)
    refine ⟨(AddCoins (DeleteBallot s identifier) challenger challengeBond).1, ?_, hdel, rfl,
      ?_, ?_⟩
    · rw [hact, ← h.1]
    · rw [h.2.1, hbal]
    · intro addr hne
      rw [h.2.2 addr hne, hbal]
  · intro hcb hout
    have h := AddCoins_reject (DeleteBallot s identifier) challenger challengeBond hcb
      (by rw [hbal]; exact hout)
    refine ⟨(AddCoins (DeleteBallot s identifier) challenger challengeBond).1, ?_, hdel, ?_⟩
    · rw [hact, ← h.1]
    · intro addr
      rw [h.2 addr, hbal]

/-- Witness of C8: the pending ballot with bond `50`, challenged under a minimum of `100`
by `"c"`, who holds `7`. With bond `100` the ballot is deleted, no error is returned and
`"c"` holds `107`; with bond `-8` the ballot is deleted, the error of code `10` is
returned and `"c"` still holds `7`. -/
theorem ActivateBallot_stale_bond_witness :
    (∃ s1, ActivateBallot (exProposed 50) ['o'] ['c'] ['X'] 10 10 100 100 = some (s1, none)
        ∧ GetBallot s1 ['X'] = some {}
        ∧ GetCoins s1 ['c'] = 107)
      ∧ (∃ s1, ActivateBallot (exProposed 50) ['o'] ['c'] ['X'] 10 10 100 (-8)
            = some (s1, some { codespace := 1, code := 10 })
        ∧ GetBallot s1 ['X'] = some {}
        ∧ GetCoins s1 ['c'] = 7) := by
  constructor
  · obtain ⟨s1, h1, h2, _, h4, _⟩ := (ActivateBallot_stale_bond (exProposed 50) ['o'] ['c']
      ['X'] 10 10 100 100 (exProposedBallot 50) (by decide) (by decide)).1
      (by decide) (by decide)
    refine ⟨s1, h1, h2, ?_⟩
    rw [h4]
    decide
  · obtain ⟨s1, h1, h2, h3⟩ := (ActivateBallot_stale_bond (exProposed 50) ['o'] ['c']
      ['X'] 10 10 100 (-8) (exProposedBallot 50) (by decide) (by decide)).2
      (by decide) (Or.inl (by decide))
    refine ⟨s1, h1, h2, ?_⟩
    rw [h3]
    decide

/-- Counterexample to C8 as stated: the ballot `"X"` is stored with bond `50`, below the
minimum `100`. Challenged by `"c"`, who holds `7`, with the bond `-8`, `ActivateBallot`
does not return success but the error of code `10`; the ballot is deleted and `"c"` still
holds `7`. The same happens with the bond `100` once `"c"` holds `2^63 - 1`: the balance
has not increased by `100`. -/
theorem ActivateBallot_stale_bond_counterexample :
    (exProposed 50).ballots.get ['X'] = some (.ballot (exProposedBallot 50))
      ∧ (exProposedBallot 50).Bond < 100
      ∧ GetCoins (exProposed 50) ['c'] = 7
      ∧ ActivateBallot (exProposed 50) ['o'] ['c'] ['X'] 10 10 100 (-8)
        = some ((AddCoins (DeleteBallot (exProposed 50) ['X']) ['c'] (-8)).1,
            some { codespace := 1, code := 10 })
      ∧ GetBallot (AddCoins (DeleteBallot (exProposed 50) ['X']) ['c'] (-8)).1 ['X'] = some {}
      ∧ GetCoins (AddCoins (DeleteBallot (exProposed 50) ['X']) ['c'] (-8)).1 ['c'] = 7
      ∧ GetCoins (AddCoins (exProposed 50) ['c'] 9223372036854775800).1 ['c']
        = 9223372036854775807
      ∧ (∃ s1, ActivateBallot (AddCoins (exProposed 50) ['c'] 9223372036854775800).1
            ['o'] ['c'] ['X'] 10 10 100 100 = some (s1, some { codespace := 1, code := 10 })
          ∧ GetBallot s1 ['X'] = some {}
          ∧ GetCoins s1 ['c'] = 9223372036854775807) := by
  refine ⟨by decide, by decide, by decide, by decide, by decide, by decide, by decide,
    ⟨(AddCoins (DeleteBallot (AddCoins (exProposed 50) ['c'] 9223372036854775800).1 ['X'])
      ['c'] 100).1, by decide, by decide, by decide⟩⟩

/-- C9: `VoteBallot` returns the error with code `107` exactly when nothing is stored
under `identifier`, and then returns the state unchanged; when a ballot `b` is stored
there it returns no error and the ballot stored afterwards is `b` with `Approve`
increased by `power` if `vote` is true, with `Deny` increased by `power` if it is false
(`int64` sums), every other field and everything else in the state as before, whether or
not `b` is active. -/
theorem VoteBallot_tally (s : State) (owner identifier : Bytes) (vote : Bool) (power : Int) :
    (s.ballots.get identifier = none →
        VoteBallot s owner identifier vote power
          = some (s, some { codespace := 2, code := 107 }))
      ∧ (∀ s1 err, VoteBallot s owner identifier vote power = some (s1, some err) →
          s.ballots.get identifier = none)
      ∧ (∀ b, s.ballots.get identifier = some (.ballot b) →
          ∃ s1, VoteBallot s owner identifier vote power = some (s1, none)
            ∧ GetBallot s1 identifier
              = some (if vote then { b with Approve := add64 b.Approve power }
                      else { b with Deny := add64 b.Deny power })
            ∧ s1.credits = s.credits ∧ s1.listings = s.listings
            ∧ s1.queue = s.queue ∧ s1.height = s.height
            ∧ ∀ key, key ≠ identifier → s1.ballots.get key = s.ballots.get key) := by
  refine ⟨?_, ?_, ?_⟩
  · intro h
    unfold VoteBallot
    rw [h]
  · intro s1 err h
    unfold VoteBallot at h
    cases hg : s.ballots.get identifier with
    | none => rfl
    | some bz =>
      rw [hg] at h
      cases bz with
      | ballot b => simp [decodeBallot] at h
      | vote v => simp [decodeBallot] at h
  · intro b hb
    have hv : VoteBallot s owner identifier vote power
        = some ({ s with ballots := s.ballots.set identifier (.ballot
            (if vote then { b with Approve := add64 b.Approve power }
              else { b with Deny := add64 b.Deny power })) }, none) := by
      unfold VoteBallot
      rw [hb]
      simp [decodeBallot]
    refine ⟨_, hv, ?_, rfl, rfl, rfl, rfl, ?_⟩
    · simp [GetBallot, KVStore.get_set_self, decodeBallot]
    · intro key hkey
      exact KVStore.get_set_of_ne s.ballots hkey _

/-- Witness of C9: a vote of power `50` for the pending, inactive ballot `"X"` raises
its `Approve` from `0` to `50`; a vote on the absent `"Y"` is refused with code `107`. -/
theorem VoteBallot_tally_witness :
    VoteBallot (exProposed 50) ['v'] ['Y'] true 50
        = some (exProposed 50, some { codespace := 2, code := 107 })
      ∧ ∃ s1, VoteBallot (exProposed 50) ['v'] ['X'] true 50 = some (s1, none)
        ∧ GetBallot s1 ['X'] = some { exProposedBallot 50 with Approve := 50 } := by
  refine ⟨(VoteBallot_tally (exProposed 50) ['v'] ['Y'] true 50).1 (by decide), ?_⟩
  obtain ⟨s1, h1, h2, _⟩ := (VoteBallot_tally (exProposed 50) ['v'] ['X'] true 50).2.2
    (exProposedBallot 50) (by decide)
  refine ⟨s1, h1, ?_⟩
  rw [h2]
  decide

theorem filter_insert_of_key_false {V : Type} (p : Bytes → Bool) (k : Bytes) (v : V)
    (l : List (Bytes × V)) (hk : p k = false) :
    (KVStore.insert k v l).filter (fun e => p e.1) = l.filter (fun e => p e.1) := by
  induction l with
  | nil => simp [KVStore.insert, hk]
  | cons e rest ih =>
    unfold KVStore.insert
    by_cases h1 : k = e.1
    · have he : p e.1 = false := h1 ▸ hk
      simp [h1, List.filter, he]
    · by_cases h2 : k < e.1
      · simp [h1, h2, List.filter, hk]
      · simp only [h1, h2, if_false, List.filter_cons, ih]

theorem ne_append_votesTag (identifier voter : Bytes) :
    identifier ++ votesTag ++ voter ≠ identifier := by
  intro h
  have h1 := congrArg List.length h
  simp [votesTag] at h1

/-- C10, the code at work: whatever `VoteBallot` returns, the entry under the vote key
`identifier + "votes" + voter` and the entries the settlement iterates for `identifier`
are those of the state it ran on; it stores no vote record. -/
theorem VoteBallot_stores_no_vote_record (s : State) (owner identifier : Bytes)
    (vote : Bool) (power : Int) (s1 : State) (err : Option SdkError)
    (h : VoteBallot s owner identifier vote power = some (s1, err)) :
    s1.ballots.get (identifier ++ votesTag ++ owner)
        = s.ballots.get (identifier ++ votesTag ++ owner)
      ∧ voteEntries s1 identifier = voteEntries s identifier := by
  unfold VoteBallot at h
  cases hg : s.ballots.get identifier with
  | none =>
    rw [hg] at h
    simp only [Option.some.injEq, Prod.mk.injEq] at h
    rw [← h.1]
    exact ⟨rfl, rfl⟩
  | some bz =>
    rw [hg] at h
    cases bz with
    | vote v => simp [decodeBallot] at h
    | ballot b =>
      simp only [decodeBallot, Option.some.injEq, Prod.mk.injEq] at h
      rw [← h.1]
      constructor
      · exact KVStore.get_set_of_ne s.ballots (ne_append_votesTag identifier owner) _
      · exact filter_insert_of_key_false (fun key => (identifier ++ votesTag).isPrefixOf key)
          identifier _ s.ballots.entries (not_isPrefixOf_append_votesTag identifier)

/-- Witness of C10: on the active ballot `"X"` with no vote record, the vote of `"v"` with
power `50` succeeds and raises `Approve` to `50`, no entry exists under `"Xvotesv"`, and
the settlement that follows credits the owner alone: `"v"` is not paid. -/
theorem VoteBallot_stores_no_vote_record_witness :
    VoteBallot (exActive 0 0) ['v'] ['X'] true 50 = some (exActive 50 0, none)
      ∧ (exActive 50 0).ballots.get (['X'] ++ votesTag ++ ['v']) = none
      ∧ voteEntries (exActive 50 0) ['X'] = []
      ∧ (endBlocker exApp (exActive 50 0)).credits = [(['o'], 25)] := by
  have hv : VoteBallot (exActive 0 0) ['v'] ['X'] true 50 = some (exActive 50 0, none) := by
    decide
  have h := VoteBallot_stores_no_vote_record (exActive 0 0) ['v'] ['X'] true 50 _ _ hv
  refine ⟨hv, ?_, ?_, by decide!⟩
  · rw [h.1]; decide
  · rw [h.2]; decide

/-! ## The keeper: missing ballots, duplicates, round trips -/

/-- C11, the code at work: when nothing is stored under `identifier`, `ActivateBallot`
reads the zero-value ballot, whose bond is `0`. With a positive `minBond` it reports no
not-found error: it makes the refund call and returns what the ledger returns, so that,
whenever the ledger accepts (the challenger's balance plus `challengeBond` is within
`0 .. 2^63 - 1`), it returns no error and the challenger's balance has grown by
`challengeBond`. With `minBond <= 0` and `challengeBond == 0` it reports no error and
writes an active ballot under `identifier`; only with `minBond <= 0` and
`challengeBond != 0` does it report an error of its own, the bond mismatch with code
`115`. -/
theorem ActivateBallot_missing_ballot (s : State) (owner challenger identifier : Bytes)
    (commitLen revealLen minBond challengeBond : Int)
    (hb : s.ballots.get identifier = none) :
    (0 < minBond →
        ActivateBallot s owner challenger identifier commitLen revealLen minBond challengeBond
          = some (AddCoins (DeleteBallot s identifier) challenger challengeBond)
        ∧ (0 ≤ GetCoins s challenger + challengeBond →
            GetCoins s challenger + challengeBond < 2 ^ 63 →
            ActivateBallot s owner challenger identifier commitLen revealLen minBond
                challengeBond
              = some ((AddCoins (DeleteBallot s identifier) challenger challengeBond).1, none)
            ∧ GetCoins (AddCoins (DeleteBallot s identifier) challenger challengeBond).1
                challenger
              = GetCoins s challenger + challengeBond))
      ∧ (minBond ≤ 0 → challengeBond = 0 →
        ∃ s1, ActivateBallot s owner challenger identifier commitLen revealLen minBond
              challengeBond = some (s1, none)
          ∧ GetBallot s1 identifier
            = some { Active := true, Challenger := challenger,
                     EndCommitBlockStamp := add64 s.height commitLen,
                     EndApplyBlockStamp := add64 (add64 s.height commitLen) revealLen })
      ∧ (minBond ≤ 0 → challengeBond ≠ 0 →
        ActivateBallot s owner challenger identifier commitLen revealLen minBond challengeBond
          = some (s, some { codespace := 2, code := 115 })) := by
  have hg : GetBallot s identifier = some {} := by
    simp [GetBallot, hb]
  refine ⟨?_, ?_, ?_⟩
  · intro hmin
    have hact := ActivateBallot_refund_path s owner challenger identifier commitLen revealLen
      minBond challengeBond {} hg hmin
    refine ⟨hact, ?_⟩
    intro h0 h1
    have hbal : GetCoins (DeleteBallot s identifier) challenger = GetCoins s challenger := rfl
    have h := AddCoins_accept (DeleteBallot s identifier) challenger challengeBond
      (by rw [hbal]; exact h0) (by rw [hbal]; exact h1)
    constructor
    · rw [hact, ← h.1]
    · rw [h.2.1, hbal]
  · intro hmin hc
    subst hc
    have hv : ActivateBallot s owner challenger identifier commitLen revealLen minBond 0
        = some ({ s with ballots := s.ballots.set identifier (.ballot
            { Active := true, Challenger := challenger,
              EndCommitBlockStamp := add64 s.height commitLen,
              EndApplyBlockStamp := add64 (add64 s.height commitLen) revealLen }) },
            none) := by
      unfold ActivateBallot
      rw [hg]
      simp [not_lt.mpr hmin]
    refine ⟨_, hv, ?_⟩
    simp [GetBallot, KVStore.get_set_self, decodeBallot]
  · intro hmin hc
    unfold ActivateBallot
    rw [hg]
    have hc2 : ¬ (0 : Int) = challengeBond := fun h => hc h.symm
    simp [not_lt.mpr hmin, hc2]

/-- Witness of C11: no ballot is stored under `"Y"`; the challenge of `"Y"` with bond
`100` under a minimum of `100` returns no error, and the challenger, who held `7`,
holds `107`. -/
theorem ActivateBallot_missing_ballot_witness :
    (exProposed 50).ballots.get ['Y'] = none
      ∧ ActivateBallot (exProposed 50) ['o'] ['c'] ['Y'] 10 10 100 100
        = some ((AddCoins (DeleteBallot (exProposed 50) ['Y']) ['c'] 100).1, none)
      ∧ GetCoins (AddCoins (DeleteBallot (exProposed 50) ['Y']) ['c'] 100).1 ['c'] = 107 := by
  have h := ((ActivateBallot_missing_ballot (exProposed 50) ['o'] ['c'] ['Y'] 10 10 100 100
    (by decide)).1 (by decide)).2 (by decide) (by decide)
  refine ⟨by decide, h.1, ?_⟩
  rw [h.2]
  decide

/-- C12, as amended: `AddBallot` reports no error whatever is already stored for
`identifier`, ballot or listing: it stores the new pending ballot
`{identifier, owner, bond, endApplyBlockStamp = h + applyLen}` under `identifier`, in place
of any ballot stored there, and leaves the listings store, the queue, the ledger and every
other entry of the ballots store as they were. -/
theorem AddBallot_overwrites (s : State) (identifier owner : Bytes) (applyLen bond : Int) :
    (AddBallot s identifier owner applyLen bond).2 = none
      ∧ GetBallot (AddBallot s identifier owner applyLen bond).1 identifier
        = some { Identifier := identifier, Owner := owner, Bond := bond,
                 EndApplyBlockStamp := add64 s.height applyLen }
      ∧ (AddBallot s identifier owner applyLen bond).1.listings = s.listings
      ∧ (AddBallot s identifier owner applyLen bond).1.queue = s.queue
      ∧ (AddBallot s identifier owner applyLen bond).1.credits = s.credits
      ∧ ∀ key, key ≠ identifier →
          (AddBallot s identifier owner applyLen bond).1.ballots.get key = s.ballots.get key := by
  refine ⟨rfl, ?_, rfl, rfl, rfl, ?_⟩
  · simp [GetBallot, AddBallot, KVStore.get_set_self, decodeBallot]
  · intro key hkey
    exact KVStore.get_set_of_ne s.ballots hkey _

/-- Counterexample to C12 as stated: the ballot `"X"` is stored, active, with owner `"o"`,
challenger `"c"`, bond `100` and tallies `3` and `1`. A second `AddBallot` on `"X"` by
`"z"` with bond `1` reports no error and the state changes: the stored ballot now has
owner `"z"`, bond `1`, no challenger, `Active` false and tallies `0`. -/
theorem AddBallot_duplicate_counterexample :
    GetBallot (exState 3 1 3 1) ['X'] = some (exBallot 3 1)
      ∧ (AddBallot (exState 3 1 3 1) ['X'] ['z'] 5 1).2 = none
      ∧ (AddBallot (exState 3 1 3 1) ['X'] ['z'] 5 1).1 ≠ exState 3 1 3 1
      ∧ GetBallot (AddBallot (exState 3 1 3 1) ['X'] ['z'] 5 1).1 ['X']
        = some { Identifier := ['X'], Owner := ['z'], Challenger := [], Active := false,
                 Bond := 1, EndApplyBlockStamp := 25, EndCommitBlockStamp := 0,
                 Approve := 0, Deny := 0 } := by
  refine ⟨by decide, by decide, by decide, by decide⟩

/-- C15: for every identifier, owner, `applyLen` and bond, `AddBallot` at height `h`
followed by `GetBallot(identifier)` returns the ballot with that identifier, owner and
bond, `EndApplyBlockStamp = h + applyLen` (the `int64` sum), `Active` false, an empty
challenger, and `EndCommitBlockStamp`, `Approve` and `Deny` all `0`. -/
theorem AddBallot_GetBallot (s : State) (identifier owner : Bytes) (applyLen bond : Int) :
    GetBallot (AddBallot s identifier owner applyLen bond).1 identifier
      = some { Identifier := identifier, Owner := owner, Challenger := [], Active := false,
               Bond := bond, EndApplyBlockStamp := add64 s.height applyLen,
               EndCommitBlockStamp := 0, Approve := 0, Deny := 0 } := by
  simp [GetBallot, AddBallot, KVStore.get_set_self, decodeBallot]

/-- Witness of C15: at height `0` on empty stores, `AddBallot("X", "o", 5, 50)` followed by
`GetBallot("X")` returns `{Identifier: "X", Owner: "o", Bond: 50, EndApplyBlockStamp: 5}`. -/
theorem AddBallot_GetBallot_witness :
    GetBallot (AddBallot ⟨0, ⟨[]⟩, ⟨[]⟩, [], []⟩ ['X'] ['o'] 5 50).1 ['X']
      = some { Identifier := ['X'], Owner := ['o'], Bond := 50, EndApplyBlockStamp := 5 } := by
  rw [AddBallot_GetBallot]
  decide

/-- C16: for every state and identifier, after `DeleteBallot(identifier)`,
`GetBallot(identifier)` returns the zero-value ballot, and `GetBallot` of every other
identifier returns what it returned before the deletion. -/
theorem DeleteBallot_GetBallot (s : State) (identifier : Bytes) :
    GetBallot (DeleteBallot s identifier) identifier = some {}
      ∧ ∀ other, other ≠ identifier →
          GetBallot (DeleteBallot s identifier) other = GetBallot s other := by
  constructor
  · simp [GetBallot, DeleteBallot, KVStore.get_delete_self]
  · intro other hne
    simp [GetBallot, DeleteBallot, KVStore.get_delete_of_ne _ hne]

/-- Witness of C16: deleting the ballot `"X"` of the example state leaves the zero-value
ballot under `"X"`, whose identifier is empty. -/
theorem DeleteBallot_GetBallot_witness :
    GetBallot (exProposed 50) ['X'] = some (exProposedBallot 50)
      ∧ GetBallot (DeleteBallot (exProposed 50) ['X']) ['X'] = some {}
      ∧ ({} : Ballot).Identifier = [] :=
  ⟨by decide, (DeleteBallot_GetBallot (exProposed 50) ['X']).1, rfl⟩

/-- C17: for every identifier and votes, `AddListing(identifier, votes)` followed by
`GetListing(identifier)` returns `{identifier, votes}`, and after a following
`DeleteListing(identifier)`, `GetListing(identifier)` returns the zero-value listing. -/
theorem AddListing_GetListing (s : State) (identifier : Bytes) (votes : Int) :
    GetListing (AddListing s identifier votes) identifier
        = { Identifier := identifier, Votes := votes }
      ∧ GetListing (DeleteListing (AddListing s identifier votes) identifier) identifier
        = {} := by
  constructor
  · simp [GetListing, AddListing, KVStore.get_set_self]
  · simp [GetListing, DeleteListing, KVStore.get_delete_self]

/-- Witness of C17: `AddListing("X", 200)` then `GetListing("X")` gives `{"X", 200}`, and
after `DeleteListing("X")` the zero-value listing. -/
theorem AddListing_GetListing_witness :
    GetListing (AddListing (exProposed 50) ['X'] 200) ['X'] = ⟨['X'], 200⟩
      ∧ GetListing (DeleteListing (AddListing (exProposed 50) ['X'] 200) ['X']) ['X']
        = ⟨[], 0⟩ :=
  AddListing_GetListing (exProposed 50) ['X'] 200

theorem filter_ne_of_lookup_none {V : Type} (k : Bytes) (l : List (Bytes × V))
    (h : KVStore.lookup k l = none) : l.filter (fun e => !decide (e.1 = k)) = l := by
  induction l with
  | nil => rfl
  | cons e rest ih =>
    unfold KVStore.lookup at h
    by_cases h1 : e.1 = k
    · simp [h1] at h
    · simp only [h1, if_false] at h
      simp [List.filter, h1, ih h]

theorem KVStore.delete_of_get_none {V : Type} (s : KVStore V) (k : Bytes)
    (h : s.get k = none) : s.delete k = s := by
  cases s with
  | mk entries =>
    simp only [KVStore.delete]
    congr 1
    exact filter_ne_of_lookup_none k entries h

theorem KVStore.delete_delete {V : Type} (s : KVStore V) (k : Bytes) :
    (s.delete k).delete k = s.delete k :=
  KVStore.delete_of_get_none _ k (KVStore.get_delete_self s k)

/-- C18: `DeleteBallot` on an identifier under which the ballots store holds nothing, and
`DeleteListing` on an identifier under which the listings store holds nothing, return the
state they ran on (neither has an error result); and each is idempotent, on every
state. -/
theorem Delete_absent_noop (s : State) (identifier : Bytes) :
    (s.ballots.get identifier = none → DeleteBallot s identifier = s)
      ∧ (s.listings.get identifier = none → DeleteListing s identifier = s)
      ∧ DeleteBallot (DeleteBallot s identifier) identifier = DeleteBallot s identifier
      ∧ DeleteListing (DeleteListing s identifier) identifier = DeleteListing s identifier := by
  refine ⟨?_, ?_, ?_, ?_⟩
  · intro h
    simp [DeleteBallot, KVStore.delete_of_get_none _ _ h]
  · intro h
    simp [DeleteListing, KVStore.delete_of_get_none _ _ h]
  · simp [DeleteBallot, KVStore.delete_delete]
  · simp [DeleteListing, KVStore.delete_delete]

/-- Witness of C18: nothing is stored under `"Y"` in either store of the example state,
and deleting the ballot `"Y"` or the listing `"Y"` returns the state itself. -/
theorem Delete_absent_noop_witness :
    DeleteBallot (exProposed 50) ['Y'] = exProposed 50
      ∧ DeleteListing (exProposed 50) ['Y'] = exProposed 50 :=
  ⟨(Delete_absent_noop (exProposed 50) ['Y']).1 (by decide),
    (Delete_absent_noop (exProposed 50) ['Y']).2.1 (by decide)⟩

/-! ## Settlement: zero totals, what stays stored, the reach of the vote loop -/

theorem F64.ofInt_zero : F64.ofInt 0 = .fin 0 := by
  simp [F64.ofInt, roundF64]

theorem F64.gt_nan (x : F64) : F64.gt .nan x = false := by
  cases x <;> simp [F64.gt, F64.lt]

theorem F64.div_zero_not_fin (x : F64) (q : ℚ) : F64.div x (.fin 0) ≠ .fin q := by
  cases x with
  | nan => simp [F64.div]
  | pinf => simp [F64.div]
  | ninf => simp [F64.div]
  | fin a =>
    unfold F64.div
    simp only [if_true]
    split
    · simp
    · split <;> simp

theorem F64.mul_not_fin_left (x y : F64) (hx : ∀ q, x ≠ .fin q) (q : ℚ) :
    F64.mul x y ≠ .fin q := by
  cases x with
  | fin a => exact absurd rfl (hx a)
  | nan => cases y <;> simp [F64.mul]
  | pinf =>
    cases y with
    | nan => simp [F64.mul]
    | pinf => simp [F64.mul, F64.sgn]
    | ninf => simp [F64.mul, F64.sgn]
    | fin b =>
      unfold F64.mul
      simp only []
      split
      · simp
      · split <;> simp
  | ninf =>
    cases y with
    | nan => simp [F64.mul]
    | pinf => simp [F64.mul, F64.sgn]
    | ninf => simp [F64.mul, F64.sgn]
    | fin b =>
      unfold F64.mul
      simp only []
      split
      · simp
      · split <;> simp

/-- C13, the code at work: for a non-empty, due, active head ballot with `approve == 0`
and `deny == 0`, `endBlocker` has no guard for the zero total: the quotient
`float64(approve) / float64(total)` is evaluated as `0 / 0` and is a NaN, the comparison
with the quorum is false and the deny-wins outcome follows; the pool is `0`, and the share
`float64(power) / pool * float64(bond) * dispensationPct` of every voter on the winning
side divides by it and is never a finite number. -/
theorem endBlocker_zero_total (app : RegistryApp) (s : State)
    (hid : (ProposalQueueHead s).Identifier ≠ [])
    (hdue : (ProposalQueueHead s).EndApplyBlockStamp ≤ s.height)
    (hact : (ProposalQueueHead s).Active = true)
    (hA : (ProposalQueueHead s).Approve = 0) (hD : (ProposalQueueHead s).Deny = 0) :
    approveRatio (ProposalQueueHead s) = .nan
      ∧ DenyWins s (endBlocker app s) (ProposalQueueHead s)
      ∧ F64.ofInt (poolTally app (ProposalQueueHead s)) = .fin 0
      ∧ ∀ power q, voterShare app (ProposalQueueHead s)
          (F64.ofInt (poolTally app (ProposalQueueHead s))) power ≠ .fin q := by
  have hr : approveRatio (ProposalQueueHead s) = .nan := by
    unfold approveRatio
    rw [hA, hD]
    have h0 : add64 0 0 = 0 := by decide
    simp [h0, F64.ofInt_zero, F64.div]
  have hq : F64.gt (approveRatio (ProposalQueueHead s)) app.quorum = false := by
    rw [hr]; exact F64.gt_nan _
  have hp : F64.ofInt (poolTally app (ProposalQueueHead s)) = .fin 0 := by
    simp [poolTally, correctVote, hq, hD, F64.ofInt_zero]
  refine ⟨hr, ?_, hp, ?_⟩
  · have h := endBlocker_deny_effects app s hid hdue hact hq
    exact ⟨h.1, h.2.1, _, _, h.2.2.1⟩
  · intro power q
    rw [hp]
    unfold voterShare
    apply F64.mul_not_fin_left
    intro q1
    apply F64.mul_not_fin_left
    intro q2
    exact F64.div_zero_not_fin _ q2

/-- Witness of C13: the active, due ballot `"X"` has tallies `0` and `0` and the vote
records of `"A"` (approve, power `0`) and `"B"` (deny, power `0`). The quotient is a NaN,
deny wins, and the share of `"B"` is `0 / 0`, a NaN, whose conversion the model takes to
be `-2^63`: the credits are `125` to the challenger, `0` to `"A"` and `-2^63` to `"B"`. -/
theorem endBlocker_zero_total_witness :
    approveRatio (ProposalQueueHead (exState 0 0 0 0)) = .nan
      ∧ voterShare exApp (ProposalQueueHead (exState 0 0 0 0)) (F64.ofInt 0) 0 = .nan
      ∧ (endBlocker exApp (exState 0 0 0 0)).credits
        = [(['c'], 125), (['A'], 0), (['B'], -9223372036854775808)] := by
  have h := endBlocker_zero_total exApp (exState 0 0 0 0) (by decide) (by decide)
    (by decide) (by decide) (by decide)
  exact ⟨h.1, by decide!, by decide!⟩

theorem foldl_delete_get_of_not_mem (l : List (Bytes × Record)) (s : State) (j : Bytes)
    (h : ∀ kv ∈ l, kv.1 ≠ j) :
    (l.foldl (fun st kv => { st with ballots := st.ballots.delete kv.1 }) s).ballots.get j
      = s.ballots.get j := by
  induction l generalizing s with
  | nil => rfl
  | cons kv rest ih =>
    rw [List.foldl_cons, ih _ (fun x hx => h x (List.mem_cons_of_mem _ hx))]
    exact KVStore.get_delete_of_ne s.ballots (fun e => h kv (List.mem_cons_self _ _) e.symm)

theorem foldl_delete_get_of_mem (l : List (Bytes × Record)) (s : State) (kv : Bytes × Record)
    (h : kv ∈ l) :
    (l.foldl (fun st kv => { st with ballots := st.ballots.delete kv.1 }) s).ballots.get kv.1
      = none := by
  induction l generalizing s with
  | nil => simp at h
  | cons x rest ih =>
    rw [List.foldl_cons]
    rcases List.mem_cons.mp h with h1 | h1
    · subst h1
      exact foldl_delete_get_none rest _ _ (KVStore.get_delete_self s.ballots kv.1)
    · exact ih _ h1

theorem voteEntries_key_ne (s : State) (identifier : Bytes) (kv : Bytes × Record)
    (h : kv ∈ voteEntries s identifier) : kv.1 ≠ identifier := by
  intro he
  have h1 := (List.mem_filter.mp h).2
  rw [he, not_isPrefixOf_append_votesTag] at h1
  exact Bool.noConfusion h1

theorem settleVotes_get_visited (app : RegistryApp) (ballot : Ballot) (c : Bool) (pool : F64)
    (s : State) (kv : Bytes × Record) (h : kv ∈ voteEntries s ballot.Identifier) :
    (settleVotes app ballot c pool s).ballots.get kv.1 = none := by
  unfold settleVotes
  simp only []
  have h4 := foldl_delete_get_of_mem
    (s.ballots.prefixIterator (ballot.Identifier ++ votesTag))
    ((s.ballots.prefixIterator (ballot.Identifier ++ votesTag)).foldl
      (voteStep app ballot c pool) s) kv h
  have hne := voteEntries_key_ne s ballot.Identifier kv h
  unfold DeactivateBallot
  split
  · show KVStore.get (KVStore.set _ _ _) kv.1 = none
    rw [KVStore.get_set_of_ne _ hne]
    exact h4
  · exact h4

theorem settleVotes_eq_DeactivateBallot (app : RegistryApp) (ballot : Ballot) (c : Bool)
    (pool : F64) (s : State) :
    settleVotes app ballot c pool s
      = DeactivateBallot (voteLoop app ballot c pool s) ballot.Identifier := rfl

theorem voteLoop_get_self (app : RegistryApp) (ballot : Ballot) (c : Bool) (pool : F64)
    (s : State) (val : Option Record) (h : s.ballots.get ballot.Identifier = val) :
    (voteLoop app ballot c pool s).ballots.get ballot.Identifier = val := by
  unfold voteLoop
  simp only []
  have h3 := foldl_voteStep_frame app ballot c pool
    (s.ballots.prefixIterator (ballot.Identifier ++ votesTag)) s
  have h4 := foldl_delete_get_of_not_mem
    (s.ballots.prefixIterator (ballot.Identifier ++ votesTag))
    ((s.ballots.prefixIterator (ballot.Identifier ++ votesTag)).foldl
      (voteStep app ballot c pool) s) ballot.Identifier
    (fun kv hkv => voteEntries_key_ne s ballot.Identifier kv hkv)
  rw [h3.2.2.1, h] at h4
  exact h4

/-- C14, as amended: `endBlocker` resolves a non-empty, due head ballot `b` that is stored
under its own identifier. In the deny-wins outcome no ballot remains stored under that
identifier, `GetBallot` returns the zero-value ballot, and no listing is stored either.
In the unchallenged outcome the ballot remains: `GetBallot` still returns `b`, next to the
new listing `{identifier, 0}`. In the approve-wins outcome the listing
`{identifier, approve}` is stored and `endBlocker` does not delete the ballot itself: `b`
is still stored in the state `s2` on which `endBlocker` makes its last call,
`DeactivateBallot(identifier)`, so that what is stored under the identifier afterwards is
what that call leaves. -/
theorem endBlocker_ballot_after (app : RegistryApp) (s : State)
    (hid : (ProposalQueueHead s).Identifier ≠ [])
    (hdue : (ProposalQueueHead s).EndApplyBlockStamp ≤ s.height)
    (hkey : s.ballots.get (ProposalQueueHead s).Identifier
      = some (.ballot (ProposalQueueHead s))) :
    ((ProposalQueueHead s).Active = false →
        GetBallot (endBlocker app s) (ProposalQueueHead s).Identifier
          = some (ProposalQueueHead s)
        ∧ GetListing (endBlocker app s) (ProposalQueueHead s).Identifier
          = { Identifier := (ProposalQueueHead s).Identifier, Votes := 0 })
      ∧ ((ProposalQueueHead s).Active = true →
          F64.gt (approveRatio (ProposalQueueHead s)) app.quorum = true →
          (∃ s2, s2 = voteLoop app (ProposalQueueHead s) true
                  (F64.ofInt (ProposalQueueHead s).Approve)
                  (AddCoins
                    (AddListing (ProposalQueuePop s) (ProposalQueueHead s).Identifier
                      (ProposalQueueHead s).Approve)
                    (ProposalQueueHead s).Owner (sponsorDividend app (ProposalQueueHead s))).1
              ∧ endBlocker app s = DeactivateBallot s2 (ProposalQueueHead s).Identifier
              ∧ GetBallot s2 (ProposalQueueHead s).Identifier = some (ProposalQueueHead s))
          ∧ GetListing (endBlocker app s) (ProposalQueueHead s).Identifier
            = { Identifier := (ProposalQueueHead s).Identifier,
                Votes := (ProposalQueueHead s).Approve })
      ∧ ((ProposalQueueHead s).Active = true →
          F64.gt (approveRatio (ProposalQueueHead s)) app.quorum = false →
          GetBallot (endBlocker app s) (ProposalQueueHead s).Identifier = some {}
          ∧ GetListing (endBlocker app s) (ProposalQueueHead s).Identifier = {}) := by
  refine ⟨?_, ?_, ?_⟩
  · intro hact
    rw [endBlocker_inactive app s hid hdue hact]
    constructor
    · simp [GetBallot, AddListing, ProposalQueuePop, hkey, decodeBallot]
    · simp [GetListing, AddListing, ProposalQueuePop, KVStore.get_set_self]
  · intro hact hq
    constructor
    · refine ⟨_, rfl, ?_, ?_⟩
      · rw [endBlocker_approve app s hid hdue hact hq, settleVotes_eq_DeactivateBallot]
      · have hk2 : (AddCoins
            (AddListing (ProposalQueuePop s) (ProposalQueueHead s).Identifier
              (ProposalQueueHead s).Approve)
            (ProposalQueueHead s).Owner
            (sponsorDividend app (ProposalQueueHead s))).1.ballots.get
              (ProposalQueueHead s).Identifier
            = some (.ballot (ProposalQueueHead s)) := hkey
        unfold GetBallot
        rw [voteLoop_get_self _ _ _ _ _ _ hk2]
        rfl
    · unfold GetListing
      rw [(endBlocker_approve_effects app s hid hdue hact hq).1, KVStore.get_set_self]
  · intro hact hq
    have h := endBlocker_deny_effects app s hid hdue hact hq
    constructor
    · unfold GetBallot
      rw [h.2.1]
    · unfold GetListing
      rw [h.1, KVStore.get_delete_self]

/-- Witness of C14: with tallies `1` to `3` deny wins and neither a ballot nor a listing
is left under `"X"`; with tallies `3` to `1` approve wins, the listing `{"X", 3}` is
stored, and the ballot is still stored when `DeactivateBallot("X")` is called. -/
theorem endBlocker_ballot_after_witness :
    (GetBallot (endBlocker exApp (exState 1 3 1 3)) ['X'] = some {}
        ∧ GetListing (endBlocker exApp (exState 1 3 1 3)) ['X'] = {})
      ∧ ((∃ s2, endBlocker exApp (exState 3 1 3 1) = DeactivateBallot s2 ['X']
            ∧ GetBallot s2 ['X'] = some (exBallot 3 1))
        ∧ GetListing (endBlocker exApp (exState 3 1 3 1)) ['X'] = ⟨['X'], 3⟩) := by
  have hd := (endBlocker_ballot_after exApp (exState 1 3 1 3) (by decide) (by decide)
    (by decide)).2.2 (by decide) (by decide!)
  have ha := (endBlocker_ballot_after exApp (exState 3 1 3 1) (by decide) (by decide)
    (by decide)).2.1 (by decide) (by decide!)
  obtain ⟨⟨s2, _, h2, h3⟩, h4⟩ := ha
  exact ⟨hd, ⟨s2, h2, h3⟩, h4⟩

/-- Counterexample to C14 as stated: the unchallenged ballot `"X"` is due at height `20`;
after `endBlocker` resolves it the queue is empty, the listing `{"X", 0}` is stored, and
`GetBallot("X")` still returns the ballot, not the zero-value ballot: a listing and a
ballot are stored for `"X"` at the same time. -/
theorem endBlocker_ballot_after_counterexample :
    (ProposalQueueHead (exPending 20)).Identifier = ['X']
      ∧ (ProposalQueueHead (exPending 20)).EndApplyBlockStamp ≤ (exPending 20).height
      ∧ (endBlocker exApp (exPending 20)).queue = []
      ∧ GetListing (endBlocker exApp (exPending 20)) ['X'] = ⟨['X'], 0⟩
      ∧ GetBallot (endBlocker exApp (exPending 20)) ['X']
        = some (ProposalQueueHead (exPending 20))
      ∧ GetBallot (endBlocker exApp (exPending 20)) ['X'] ≠ some {} := by
  refine ⟨by decide, by decide, by decide, by decide, by decide, by decide⟩

theorem mem_voteEntries (s : State) (identifier key : Bytes) (val : Record)
    (hmem : (key, val) ∈ s.ballots.entries) (hpre : identifier ++ votesTag <+: key) :
    (key, val) ∈ voteEntries s identifier :=
  List.mem_filter.mpr ⟨hmem, List.isPrefixOf_iff_prefix.mpr hpre⟩

/-- C19, the code at work: when a non-empty, due, active head ballot `X` is settled, every
entry of the ballots store whose key starts with `X + "votes"` is visited by the vote loop,
a ballot stored under such an identifier included: that ballot is deleted from the store
(`GetBallot` returns the zero-value ballot afterwards), and a credit is made to the
address cut out of its identifier, of the payout computed for the zero-value vote. -/
theorem endBlocker_vote_loop_reach (app : RegistryApp) (s : State)
    (hid : (ProposalQueueHead s).Identifier ≠ [])
    (hdue : (ProposalQueueHead s).EndApplyBlockStamp ≤ s.height)
    (hact : (ProposalQueueHead s).Active = true)
    (key : Bytes) (other : Ballot)
    (hmem : (key, Record.ballot other) ∈ s.ballots.entries)
    (hpre : (ProposalQueueHead s).Identifier ++ votesTag <+: key) :
    (endBlocker app s).ballots.get key = none
      ∧ GetBallot (endBlocker app s) key = some {}
      ∧ (key.drop ((ProposalQueueHead s).Identifier ++ votesTag).length,
          votePayout app (ProposalQueueHead s) (correctVote app (ProposalQueueHead s))
            (F64.ofInt (poolTally app (ProposalQueueHead s))) {})
        ∈ (endBlocker app s).credits := by
  have hv := mem_voteEntries s _ key _ hmem hpre
  have hget : (endBlocker app s).ballots.get key = none := by
    cases hq : F64.gt (approveRatio (ProposalQueueHead s)) app.quorum
    · rw [endBlocker_deny app s hid hdue hact hq]
      apply settleVotes_get_visited _ _ _ _ _ (key, Record.ballot other)
      have h2 : voteEntries (AddCoins (DeleteBallot (DeleteListing (ProposalQueuePop s)
          (ProposalQueueHead s).Identifier) (ProposalQueueHead s).Identifier)
          (ProposalQueueHead s).Challenger
          (add64 (ProposalQueueHead s).Bond (sponsorDividend app (ProposalQueueHead s)))).1
          (ProposalQueueHead s).Identifier
          = voteEntries s (ProposalQueueHead s).Identifier :=
        voteEntries_DeleteBallot (DeleteListing (ProposalQueuePop s)
          (ProposalQueueHead s).Identifier) (ProposalQueueHead s).Identifier
      rw [h2]
      exact hv
    · rw [endBlocker_approve app s hid hdue hact hq]
      exact settleVotes_get_visited _ _ _ _ _ (key, Record.ballot other) hv
  refine ⟨hget, ?_, ?_⟩
  · unfold GetBallot
    rw [hget]
  · obtain ⟨sponsor, hc⟩ := endBlocker_credits app s hid hdue hact
    rw [hc]
    apply List.mem_append_right
    apply List.mem_cons_of_mem
    unfold voteCredits
    exact List.mem_map.mpr ⟨(key, Record.ballot other), hv, rfl⟩

/-- Witness of C19: the store holds the active, due ballot `"X"` and the pending ballot
`"Xvotes1"`. Settling `"X"` credits the owner `25`, then the address `"1"` with `0` on
behalf of the ballot `"Xvotes1"`, then the voter `"A"` with `28`; and the ballot
`"Xvotes1"`, which `GetBallot` returned before, is gone. -/
theorem endBlocker_vote_loop_reach_witness :
    GetBallot exCollide (['X'] ++ votesTag ++ ['1'])
        = some { Identifier := ['X'] ++ votesTag ++ ['1'], Owner := ['p'], Bond := 70,
                 EndApplyBlockStamp := 30 }
      ∧ GetBallot (endBlocker exApp exCollide) (['X'] ++ votesTag ++ ['1']) = some {}
      ∧ (endBlocker exApp exCollide).credits = [(['o'], 25), (['1'], 0), (['A'], 28)] := by
  have h := endBlocker_vote_loop_reach exApp exCollide (by decide) (by decide) (by decide)
    (['X'] ++ votesTag ++ ['1'])
    { Identifier := ['X'] ++ votesTag ++ ['1'], Owner := ['p'], Bond := 70,
      EndApplyBlockStamp := 30 }
    (by decide) ⟨['1'], by decide⟩
  exact ⟨by decide, h.2.1, by decide!⟩

/-! ## Accuracy of the `float64` model -/

theorem pow2_eq_zpow (e : Int) : pow2 e = (2 : ℚ) ^ e := by
  unfold pow2
  split
  · rename_i h
    obtain ⟨n, rfl⟩ := Int.eq_ofNat_of_zero_le h
    simp
  · rename_i h
    have h2 : 0 ≤ -e := by omega
    obtain ⟨n, hn⟩ := Int.eq_ofNat_of_zero_le h2
    have he : e = -(n : Int) := by omega
    subst he
    simp

theorem pow2_add (a b : Int) : pow2 (a + b) = pow2 a * pow2 b := by
  simp only [pow2_eq_zpow]
  exact zpow_add₀ (by norm_num) a b

theorem pow2_le_pow2 {a b : Int} (h : a ≤ b) : pow2 a ≤ pow2 b := by
  simp only [pow2_eq_zpow]
  exact zpow_le_zpow_right₀ (by norm_num) h

theorem log2Fuel_spec (fuel n : Nat) (hf : n ≤ fuel) (hn : 1 ≤ n) :
    2 ^ log2Fuel fuel n ≤ n ∧ n < 2 ^ (log2Fuel fuel n + 1) := by
  induction fuel generalizing n with
  | zero => omega
  | succ fuel ih =>
    unfold log2Fuel
    by_cases h2 : n < 2
    · simp only [h2, if_true]
      omega
    · simp only [h2, if_false]
      have ih2 := ih (n / 2) (by omega) (by omega)
      constructor
      · rw [pow_succ]
        omega
      · rw [pow_succ]
        have := ih2.2
        omega

theorem natLog2_spec (n : Nat) (hn : 1 ≤ n) :
    2 ^ natLog2 n ≤ n ∧ n < 2 ^ (natLog2 n + 1) :=
  log2Fuel_spec n n (le_refl n) hn

theorem ilog2_bounds (n d : Nat) (hn : 1 ≤ n) (hd : 1 ≤ d) :
    pow2 ((natLog2 n : Int) - (natLog2 d : Int) - 1) ≤ (n : ℚ) / (d : ℚ)
      ∧ (n : ℚ) / (d : ℚ) < pow2 ((natLog2 n : Int) - (natLog2 d : Int) + 1) := by
  obtain ⟨hn1, hn2⟩ := natLog2_spec n hn
  obtain ⟨hd1, hd2⟩ := natLog2_spec d hd
  have hdq : (0 : ℚ) < (d : ℚ) := by exact_mod_cast hd
  have hn1q : (2 : ℚ) ^ natLog2 n ≤ (n : ℚ) := by exact_mod_cast hn1
  have hn2q : (n : ℚ) < (2 : ℚ) ^ (natLog2 n + 1) := by exact_mod_cast hn2
  have hd1q : (2 : ℚ) ^ natLog2 d ≤ (d : ℚ) := by exact_mod_cast hd1
  have hd2q : (d : ℚ) < (2 : ℚ) ^ (natLog2 d + 1) := by exact_mod_cast hd2
  have hp : ∀ k : Nat, (0 : ℚ) < (2 : ℚ) ^ k := fun k => by positivity
  constructor
  · have e0 : (natLog2 n : Int) - (natLog2 d : Int) - 1
        = (natLog2 n : Int) - ((natLog2 d + 1 : Nat) : Int) := by
      push_cast; ring
    rw [pow2_eq_zpow, e0, zpow_sub₀ (by norm_num : (2 : ℚ) ≠ 0), zpow_natCast, zpow_natCast,
      div_le_div_iff₀ (hp _) hdq]
    calc (2 : ℚ) ^ natLog2 n * (d : ℚ)
        ≤ (n : ℚ) * (d : ℚ) := mul_le_mul_of_nonneg_right hn1q (le_of_lt hdq)
      _ ≤ (n : ℚ) * 2 ^ (natLog2 d + 1) :=
          mul_le_mul_of_nonneg_left (le_of_lt hd2q) (by positivity)
  · have e0 : (natLog2 n : Int) - (natLog2 d : Int) + 1
        = ((natLog2 n + 1 : Nat) : Int) - (natLog2 d : Int) := by
      push_cast; ring
    rw [pow2_eq_zpow, e0, zpow_sub₀ (by norm_num : (2 : ℚ) ≠ 0), zpow_natCast, zpow_natCast,
      div_lt_div_iff₀ hdq (hp _)]
    calc (n : ℚ) * 2 ^ natLog2 d
        ≤ (n : ℚ) * (d : ℚ) := mul_le_mul_of_nonneg_left hd1q (by positivity)
      _ < 2 ^ (natLog2 n + 1) * (d : ℚ) := mul_lt_mul_of_pos_right hn2q hdq

theorem ilog2_spec (a : ℚ) (ha : 0 < a) :
    pow2 (ilog2 a) ≤ a ∧ a < pow2 (ilog2 a + 1) := by
  have hnum : 0 < a.num := Rat.num_pos.mpr ha
  have hden : 1 ≤ a.den := a.den_pos
  have hnat : 1 ≤ a.num.natAbs := by omega
  have hcast : ((a.num.natAbs : Nat) : ℚ) = (a.num : ℚ) := by
    rw [← Int.cast_natCast, Int.natAbs_of_nonneg (le_of_lt hnum)]
  have haq : (a.num.natAbs : ℚ) / (a.den : ℚ) = a := by
    rw [hcast]
    exact Rat.num_div_den a
  have key := ilog2_bounds a.num.natAbs a.den hnat hden
  rw [haq] at key
  unfold ilog2
  simp only []
  split
  · rename_i h
    exact ⟨h, key.2⟩
  · rename_i h
    refine ⟨key.1, ?_⟩
    rw [sub_add_cancel]
    exact lt_of_not_le h

theorem roundEven_spec (m : ℚ) : |(roundEven m : ℚ) - m| ≤ 1 / 2 := by
  have hf : m.num / (m.den : Int) = ⌊m⌋ := (Rat.floor_def' m).symm
  have h1 : (⌊m⌋ : ℚ) ≤ m := Int.floor_le m
  have h2 : m < (⌊m⌋ : ℚ) + 1 := Int.lt_floor_add_one m
  unfold roundEven
  simp only [hf]
  split
  · rename_i h
    rw [abs_le]
    constructor <;> linarith
  · split
    · rename_i h h'
      rw [abs_le]
      push_cast
      constructor <;> linarith
    · rename_i h h'
      have he : m - (⌊m⌋ : ℚ) = 1 / 2 := le_antisymm (not_lt.mp h') (not_lt.mp h)
      split
      · rw [abs_le]
        constructor <;> linarith
      · rw [abs_le]
        push_cast
        constructor <;> linarith

theorem roundF64_pos_spec (q : ℚ) (hq : 0 < q) :
    ∃ r : ℚ, 0 ≤ r ∧ |r - q| ≤ pow2 (max (ilog2 q) (-1022) - 52) / 2
      ∧ roundF64 q = if pow2 1024 ≤ r then F64.pinf else F64.fin r := by
  have hu : 0 < pow2 (max (ilog2 q) (-1022) - 52) := pow2_pos _
  refine ⟨(roundEven (q / pow2 (max (ilog2 q) (-1022) - 52)) : ℚ)
    * pow2 (max (ilog2 q) (-1022) - 52), ?_, ?_, ?_⟩
  · apply mul_nonneg
    · exact_mod_cast roundEven_nonneg _ (div_nonneg (le_of_lt hq) (le_of_lt hu))
    · exact le_of_lt hu
  · have h := roundEven_spec (q / pow2 (max (ilog2 q) (-1022) - 52))
    have e : (roundEven (q / pow2 (max (ilog2 q) (-1022) - 52)) : ℚ)
          * pow2 (max (ilog2 q) (-1022) - 52) - q
        = ((roundEven (q / pow2 (max (ilog2 q) (-1022) - 52)) : ℚ)
            - q / pow2 (max (ilog2 q) (-1022) - 52))
          * pow2 (max (ilog2 q) (-1022) - 52) := by
      field_simp
    rw [e, abs_mul, abs_of_pos hu]
    calc |(roundEven (q / pow2 (max (ilog2 q) (-1022) - 52)) : ℚ)
            - q / pow2 (max (ilog2 q) (-1022) - 52)| * pow2 (max (ilog2 q) (-1022) - 52)
        ≤ 1 / 2 * pow2 (max (ilog2 q) (-1022) - 52) :=
          mul_le_mul_of_nonneg_right h (le_of_lt hu)
      _ = pow2 (max (ilog2 q) (-1022) - 52) / 2 := by ring
  · unfold roundF64
    simp only [ne_of_gt hq, if_false, abs_of_pos hq, hq, if_true]

theorem pow2_neg_1022_le_iff (q : ℚ) (hq : 0 < q) :
    pow2 (-1022) ≤ q ↔ -1022 ≤ ilog2 q := by
  obtain ⟨h1, h2⟩ := ilog2_spec q hq
  constructor
  · intro h
    by_contra hc
    have h3 : ilog2 q + 1 ≤ -1022 := by omega
    have h4 := pow2_le_pow2 h3
    linarith
  · intro h
    exact le_trans (pow2_le_pow2 h) h1

/-- The unit round-off of binary64, `2^-53`. -/
theorem pow2_neg_53 : pow2 (-53) = 1 / 2 ^ 53 := by decide!

theorem roundF64_fin_error (q r : ℚ) (hq : 0 < q) (h : roundF64 q = .fin r) :
    0 ≤ r ∧ (pow2 (-1022) ≤ q → |r - q| ≤ q * (1 / 2 ^ 53)) ∧ (q < pow2 (-1022) → r < 1) := by
  obtain ⟨r', hr0, herr, hval⟩ := roundF64_pos_spec q hq
  have hrr : r' = r := by
    rw [hval] at h
    split at h
    · exact F64.noConfusion h
    · exact F64.fin.inj h
  subst hrr
  obtain ⟨h1, h2⟩ := ilog2_spec q hq
  refine ⟨hr0, ?_, ?_⟩
  · intro hn
    have hi : -1022 ≤ ilog2 q := (pow2_neg_1022_le_iff q hq).mp hn
    rw [max_eq_left hi] at herr
    have e : pow2 (ilog2 q - 52) / 2 = pow2 (ilog2 q) * (1 / 2 ^ 53) := by
      have : ilog2 q - 52 = ilog2 q + (-52) := by ring
      rw [this, pow2_add]
      have : pow2 (-52) = 1 / 2 ^ 52 := by decide!
      rw [this]
      ring
    rw [e] at herr
    exact le_trans herr (mul_le_mul_of_nonneg_right h1 (by positivity))
  · intro hs
    have hi : ¬ -1022 ≤ ilog2 q := fun hc => absurd ((pow2_neg_1022_le_iff q hq).mpr hc)
      (not_le.mpr hs)
    rw [max_eq_right (by omega)] at herr
    have e1 : pow2 (-1022 - 52) / 2 ≤ 1 / 4 := by decide!
    have e2 : pow2 (-1022) ≤ 1 / 4 := by decide!
    have := (abs_le.mp herr).2
    linarith

theorem roundF64_fin_of_le (q : ℚ) (hq : 0 < q) (hle : q ≤ 2 ^ 64) :
    ∃ r, roundF64 q = .fin r := by
  obtain ⟨r, _, herr, hval⟩ := roundF64_pos_spec q hq
  obtain ⟨h1, h2⟩ := ilog2_spec q hq
  refine ⟨r, ?_⟩
  rw [hval]
  have hlt : ¬ pow2 1024 ≤ r := by
    have hu : pow2 (max (ilog2 q) (-1022) - 52) ≤ 2 ^ 64 := by
      rcases le_total (ilog2 q) (-1022) with hc | hc
      · rw [max_eq_right hc]
        decide!
      · rw [max_eq_left hc]
        have e : ilog2 q - 52 ≤ ilog2 q := by omega
        exact le_trans (pow2_le_pow2 e) (le_trans h1 hle)
    have e1024 : (2 : ℚ) ^ 64 + 2 ^ 64 / 2 < pow2 1024 := by decide!
    have := (abs_le.mp herr).2
    intro hc
    linarith
  simp [hlt]

theorem near_refl (e : ℚ) : Near 0 e e := by
  simp [Near]

theorem near_lo_pos (k : Nat) : (0 : ℚ) < (1 - 1 / 2 ^ 52) ^ k := by
  apply pow_pos
  norm_num

theorem near_nonneg {k : Nat} {x e : ℚ} (h : Near k x e) (he : 0 ≤ e) : 0 ≤ x :=
  le_trans (mul_nonneg he (le_of_lt (near_lo_pos k))) h.1

theorem near_zero {k : Nat} {e : ℚ} (h : Near k 0 e) (he : 0 ≤ e) : e = 0 := by
  have h1 := h.1
  have h2 := near_lo_pos k
  by_contra hne
  have hpos : 0 < e := lt_of_le_of_ne he (Ne.symm hne)
  have := mul_pos hpos h2
  linarith

theorem near_of_zero (k : Nat) : Near k 0 0 := by
  simp [Near]

theorem near_round {k : Nat} {q r e : ℚ} (he : 0 ≤ e) (h : Near k q e)
    (herr : |r - q| ≤ q * (1 / 2 ^ 53)) : Near (k + 1) r e := by
  have hq : 0 ≤ q := near_nonneg h he
  obtain ⟨hl, hu⟩ := abs_le.mp herr
  have hlo : (0 : ℚ) ≤ 1 - 1 / 2 ^ 52 := by norm_num
  have hhi : (0 : ℚ) ≤ 1 + 1 / 2 ^ 52 := by norm_num
  constructor
  · calc e * (1 - 1 / 2 ^ 52) ^ (k + 1)
        = e * (1 - 1 / 2 ^ 52) ^ k * (1 - 1 / 2 ^ 52) := by ring
      _ ≤ q * (1 - 1 / 2 ^ 52) := mul_le_mul_of_nonneg_right h.1 hlo
      _ ≤ r := by nlinarith
  · calc r ≤ q * (1 + 1 / 2 ^ 52) := by nlinarith
      _ ≤ e * (1 + 1 / 2 ^ 52) ^ k * (1 + 1 / 2 ^ 52) := mul_le_mul_of_nonneg_right h.2 hhi
      _ = e * (1 + 1 / 2 ^ 52) ^ (k + 1) := by ring

theorem near_mul {j k : Nat} {x y e f : ℚ} (he : 0 ≤ e) (hf : 0 ≤ f)
    (hx : Near j x e) (hy : Near k y f) : Near (j + k) (x * y) (e * f) := by
  have hx0 : 0 ≤ x := near_nonneg hx he
  have hy0 : 0 ≤ y := near_nonneg hy hf
  constructor
  · calc e * f * (1 - 1 / 2 ^ 52) ^ (j + k)
        = (e * (1 - 1 / 2 ^ 52) ^ j) * (f * (1 - 1 / 2 ^ 52) ^ k) := by ring
      _ ≤ x * y :=
          mul_le_mul hx.1 hy.1 (mul_nonneg hf (le_of_lt (near_lo_pos k))) hx0
  · calc x * y ≤ (e * (1 + 1 / 2 ^ 52) ^ j) * (f * (1 + 1 / 2 ^ 52) ^ k) :=
          mul_le_mul hx.2 hy.2 hy0 (le_trans hx0 hx.2)
      _ = e * f * (1 + 1 / 2 ^ 52) ^ (j + k) := by ring

theorem near_inv {t r : ℚ} (ht : 0 < t) (herr : |r - t| ≤ t * (1 / 2 ^ 53)) :
    0 < r ∧ Near 1 (1 / r) (1 / t) := by
  obtain ⟨hl, hu⟩ := abs_le.mp herr
  have hr : 0 < r := by nlinarith
  refine ⟨hr, ?_, ?_⟩
  · rw [pow_one, div_mul_eq_mul_div, one_mul, div_le_div_iff₀ ht hr]
    nlinarith
  · rw [pow_one, div_mul_eq_mul_div, one_mul, div_le_div_iff₀ hr ht]
    nlinarith

theorem near_lower {k : Nat} {q e : ℚ} (h : Near k q e) (hk : k ≤ 6) (he : 1 / 2 ^ 63 ≤ e) :
    pow2 (-1022) ≤ q := by
  have h1 : (1 / 2 : ℚ) ^ 6 ≤ (1 - 1 / 2 ^ 52) ^ k := by
    calc (1 / 2 : ℚ) ^ 6 ≤ (1 / 2 : ℚ) ^ k :=
          pow_le_pow_of_le_one (by norm_num) (by norm_num) hk
      _ ≤ (1 - 1 / 2 ^ 52) ^ k := pow_le_pow_left₀ (by norm_num) (by norm_num) k
  have h2 : pow2 (-1022) ≤ 1 / 2 ^ 63 * (1 / 2 : ℚ) ^ 6 := by decide!
  calc pow2 (-1022) ≤ 1 / 2 ^ 63 * (1 / 2 : ℚ) ^ 6 := h2
    _ ≤ e * (1 - 1 / 2 ^ 52) ^ k :=
        mul_le_mul he h1 (by positivity) (le_trans (by positivity) he)
    _ ≤ q := h.1

theorem near_six {x e : ℚ} (he : 0 ≤ e) (h : Near 6 x e) :
    e * (1 - 1 / 2 ^ 49) ≤ x ∧ x ≤ e * (1 + 1 / 2 ^ 49) := by
  have h1 : (1 - 1 / 2 ^ 49 : ℚ) ≤ (1 - 1 / 2 ^ 52) ^ 6 := by norm_num
  have h2 : ((1 + 1 / 2 ^ 52) ^ 6 : ℚ) ≤ 1 + 1 / 2 ^ 49 := by norm_num
  exact ⟨le_trans (mul_le_mul_of_nonneg_left h1 he) h.1,
    le_trans h.2 (mul_le_mul_of_nonneg_left h2 he)⟩

theorem F64.mul_fin_not_fin (a : ℚ) (y : F64) (hy : ∀ b, y ≠ .fin b) (q : ℚ) :
    F64.mul (.fin a) y ≠ .fin q := by
  cases y with
  | fin b => exact absurd rfl (hy b)
  | nan => simp [F64.mul]
  | pinf =>
    unfold F64.mul
    simp only []
    split
    · simp
    · split <;> simp
  | ninf =>
    unfold F64.mul
    simp only []
    split
    · simp
    · split <;> simp

theorem F64.mul_eq_fin {x y : F64} {q : ℚ} (h : F64.mul x y = .fin q) :
    ∃ a b, x = .fin a ∧ y = .fin b ∧ roundF64 (a * b) = .fin q := by
  cases x with
  | fin a =>
    cases y with
    | fin b => exact ⟨a, b, rfl, rfl, h⟩
    | nan => exact absurd h (F64.mul_fin_not_fin a _ (fun _ => by simp) q)
    | pinf => exact absurd h (F64.mul_fin_not_fin a _ (fun _ => by simp) q)
    | ninf => exact absurd h (F64.mul_fin_not_fin a _ (fun _ => by simp) q)
  | nan => exact absurd h (F64.mul_not_fin_left _ _ (fun _ => by simp) q)
  | pinf => exact absurd h (F64.mul_not_fin_left _ _ (fun _ => by simp) q)
  | ninf => exact absurd h (F64.mul_not_fin_left _ _ (fun _ => by simp) q)

theorem F64.div_eq_fin {x : F64} {b q : ℚ} (hb : b ≠ 0) (h : F64.div x (.fin b) = .fin q) :
    ∃ a, x = .fin a ∧ roundF64 (a / b) = .fin q := by
  cases x with
  | fin a =>
    refine ⟨a, rfl, ?_⟩
    simpa [F64.div, hb] using h
  | nan => simp [F64.div] at h
  | pinf =>
    unfold F64.div at h
    simp only [] at h
    split at h <;> exact F64.noConfusion h
  | ninf =>
    unfold F64.div at h
    simp only [] at h
    split at h <;> exact F64.noConfusion h

theorem roundF64_zero : roundF64 0 = .fin 0 := by
  simp [roundF64]

theorem round_step {k : Nat} {q r e : ℚ} (he : e = 0 ∨ 1 / 2 ^ 63 ≤ e) (hk : k ≤ 6)
    (hN : Near k q e) (hr : roundF64 q = .fin r) : Near (k + 1) r e := by
  rcases he with he | he
  · subst he
    have hq : q = 0 := by
      have h1 := hN.1
      have h2 := hN.2
      simp only [zero_mul] at h1 h2
      exact le_antisymm h2 h1
    subst hq
    rw [roundF64_zero] at hr
    rw [← F64.fin.inj hr]
    exact near_of_zero _
  · have he0 : 0 ≤ e := le_trans (by positivity) he
    have hn := near_lower hN hk he
    have hq : 0 < q := lt_of_lt_of_le (pow2_pos _) hn
    exact near_round he0 hN ((roundF64_fin_error q r hq hr).2.1 hn)

theorem ofInt_near {n : Int} {r : ℚ} (hn : 0 ≤ n) (h : F64.ofInt n = .fin r) :
    Near 1 r (n : ℚ) := by
  have he : (n : ℚ) = 0 ∨ 1 / 2 ^ 63 ≤ (n : ℚ) := by
    rcases eq_or_lt_of_le hn with h0 | h0
    · left
      exact_mod_cast h0.symm
    · right
      have h1 : (1 : ℚ) ≤ (n : ℚ) := by exact_mod_cast h0
      exact le_trans (by norm_num) h1
  exact round_step he (by norm_num) (near_refl _) h

theorem ofInt_pos_fin {t : Int} (ht : 0 < t) (hle : t ≤ 2 ^ 63) :
    ∃ r, F64.ofInt t = .fin r ∧ |r - (t : ℚ)| ≤ (t : ℚ) * (1 / 2 ^ 53) := by
  have h1 : (1 : ℚ) ≤ (t : ℚ) := by exact_mod_cast ht
  have hq : (0 : ℚ) < (t : ℚ) := lt_of_lt_of_le one_pos h1
  have hle2 : (t : ℚ) ≤ 2 ^ 64 := by
    have : (t : ℚ) ≤ 2 ^ 63 := by exact_mod_cast hle
    linarith
  obtain ⟨r, hr⟩ := roundF64_fin_of_le (t : ℚ) hq hle2
  refine ⟨r, hr, ?_⟩
  have hn : pow2 (-1022) ≤ (t : ℚ) := le_trans (by decide!) h1
  exact (roundF64_fin_error _ r hq hr).2.1 hn

theorem near_five_small {q e : ℚ} (he : 0 ≤ e) (h : Near 5 q e) (hq : q < pow2 (-1022)) :
    e < 1 := by
  have h1 : (1 / 32 : ℚ) ≤ (1 - 1 / 2 ^ 52) ^ 5 := by norm_num
  have h2 : pow2 (-1022) ≤ 1 / 32 := by decide!
  have h3 : e * (1 / 32) ≤ q := le_trans (mul_le_mul_of_nonneg_left h1 he) h.1
  linarith

/-- Accuracy of one voter's share: for a power `p ≥ 0`, a pool tally
`0 < t ≤ 2^63`, a bond `B ≥ 0` and a finite rate `d ≥ 0`, a share
`float64(p) / float64(t) * float64(B) * d` that is a finite number `x` has an integer part
within `p * B * d / t * (1 ± 2^-49)`, up to the coin lost by truncation. -/
theorem voterShare_bounds (app : RegistryApp) (ballot : Ballot) (t p : Int) (d x : ℚ)
    (hd : app.dispensationPct = .fin d) (hd0 : 0 ≤ d) (hB : 0 ≤ ballot.Bond)
    (hp : 0 ≤ p) (ht : 0 < t) (ht2 : t ≤ 2 ^ 63)
    (hx : voterShare app ballot (F64.ofInt t) p = .fin x) :
    0 ≤ x
      ∧ (⌊x⌋ : ℚ) ≤ (p : ℚ) / (t : ℚ) * (ballot.Bond : ℚ) * d * (1 + 1 / 2 ^ 49)
      ∧ (p : ℚ) / (t : ℚ) * (ballot.Bond : ℚ) * d * (1 - 1 / 2 ^ 49) - 1 < (⌊x⌋ : ℚ) := by
  have htq : (0 : ℚ) < (t : ℚ) := by exact_mod_cast ht
  have hpq : (0 : ℚ) ≤ (p : ℚ) := by exact_mod_cast hp
  have hBq : (0 : ℚ) ≤ (ballot.Bond : ℚ) := by exact_mod_cast hB
  have ht2q : (t : ℚ) ≤ 2 ^ 63 := by exact_mod_cast ht2
  obtain ⟨t', hT, hTerr⟩ := ofInt_pos_fin ht ht2
  obtain ⟨ht'pos, hTinv⟩ := near_inv htq hTerr
  unfold voterShare at hx
  rw [hd, hT] at hx
  obtain ⟨y, d', hy, hd', hxr⟩ := F64.mul_eq_fin hx
  have hdd : d' = d := (F64.fin.inj hd').symm
  rw [hdd] at hxr
  obtain ⟨r, b', hr, hb', hyr⟩ := F64.mul_eq_fin hy
  obtain ⟨p', hp', hrr⟩ := F64.div_eq_fin (ne_of_gt ht'pos) hr
  have hP : Near 1 p' (p : ℚ) := ofInt_near hp hp'
  have hBn : Near 1 b' (ballot.Bond : ℚ) := ofInt_near hB hb'
  -- the quotient
  have hquot : Near 2 (p' / t') ((p : ℚ) / (t : ℚ)) := by
    have h := near_mul hpq (le_of_lt (one_div_pos.mpr htq)) hP hTinv
    rw [div_eq_mul_one_div p' t', div_eq_mul_one_div (p : ℚ) (t : ℚ)]
    exact h
  have hpt_cases : (p : ℚ) / (t : ℚ) = 0 ∨ 1 / 2 ^ 63 ≤ (p : ℚ) / (t : ℚ) := by
    rcases eq_or_lt_of_le hp with h0 | h0
    · left
      rw [← h0]
      simp
    · right
      have h1 : (1 : ℚ) ≤ (p : ℚ) := by exact_mod_cast h0
      rw [div_le_div_iff₀ (by positivity) htq]
      nlinarith
  have hR : Near 3 r ((p : ℚ) / (t : ℚ)) := round_step hpt_cases (by norm_num) hquot hrr
  have hpt0 : (0 : ℚ) ≤ (p : ℚ) / (t : ℚ) := div_nonneg hpq (le_of_lt htq)
  -- times the bond
  have hprod : Near 4 (r * b') ((p : ℚ) / (t : ℚ) * (ballot.Bond : ℚ)) :=
    near_mul hpt0 hBq hR hBn
  have hpb_cases : (p : ℚ) / (t : ℚ) * (ballot.Bond : ℚ) = 0
      ∨ 1 / 2 ^ 63 ≤ (p : ℚ) / (t : ℚ) * (ballot.Bond : ℚ) := by
    rcases hpt_cases with h0 | h0
    · left
      rw [h0, zero_mul]
    · rcases eq_or_lt_of_le hB with hb0 | hb0
      · left
        rw [← hb0]
        simp
      · right
        have h1 : (1 : ℚ) ≤ (ballot.Bond : ℚ) := by exact_mod_cast hb0
        calc (1 : ℚ) / 2 ^ 63 = 1 / 2 ^ 63 * 1 := by ring
          _ ≤ (p : ℚ) / (t : ℚ) * (ballot.Bond : ℚ) :=
              mul_le_mul h0 h1 (by norm_num) hpt0
  have hY : Near 5 y ((p : ℚ) / (t : ℚ) * (ballot.Bond : ℚ)) :=
    round_step hpb_cases (by norm_num) hprod hyr
  have hpb0 : (0 : ℚ) ≤ (p : ℚ) / (t : ℚ) * (ballot.Bond : ℚ) := mul_nonneg hpt0 hBq
  -- times the rate
  have hfin : Near 5 (y * d) ((p : ℚ) / (t : ℚ) * (ballot.Bond : ℚ) * d) :=
    near_mul hpb0 hd0 hY (near_refl d)
  have he0 : (0 : ℚ) ≤ (p : ℚ) / (t : ℚ) * (ballot.Bond : ℚ) * d := mul_nonneg hpb0 hd0
  have hq0 : 0 ≤ y * d := near_nonneg hfin he0
  rcases eq_or_lt_of_le hq0 with hz | hpos
  · -- the product is zero
    rw [← hz, roundF64_zero] at hxr
    have hx0 : x = 0 := (F64.fin.inj hxr).symm
    have hez : (p : ℚ) / (t : ℚ) * (ballot.Bond : ℚ) * d = 0 := by
      rw [← hz] at hfin
      exact near_zero hfin he0
    subst hx0
    rw [hez]
    simp
  · obtain ⟨hx0, hnorm, hsub⟩ := roundF64_fin_error (y * d) x hpos hxr
    refine ⟨hx0, ?_, ?_⟩
    · rcases le_or_lt (pow2 (-1022)) (y * d) with hn | hs
      · have h6 := near_six he0 (near_round he0 hfin (hnorm hn))
        exact le_trans (Int.floor_le x) h6.2
      · have hfl : ⌊x⌋ = 0 := Int.floor_eq_zero_iff.mpr ⟨hx0, hsub hs⟩
        rw [hfl]
        simp only [Int.cast_zero]
        exact mul_nonneg he0 (by norm_num)
    · rcases le_or_lt (pow2 (-1022)) (y * d) with hn | hs
      · have h6 := near_six he0 (near_round he0 hfin (hnorm hn))
        have := Int.lt_floor_add_one x
        linarith
      · have hfl : ⌊x⌋ = 0 := Int.floor_eq_zero_iff.mpr ⟨hx0, hsub hs⟩
        rw [hfl]
        simp only [Int.cast_zero]
        have hlt := near_five_small he0 hfin hs
        have hle : (p : ℚ) / (t : ℚ) * (ballot.Bond : ℚ) * d * (1 - 1 / 2 ^ 49)
            ≤ (p : ℚ) / (t : ℚ) * (ballot.Bond : ℚ) * d * 1 :=
          mul_le_mul_of_nonneg_left (by norm_num) he0
        linarith

theorem sum_map_filter_of_zero {α : Type} (l : List α) (p : α → Bool) (f : α → Int)
    (h : ∀ a ∈ l, p a = false → f a = 0) :
    (l.map f).sum = ((l.filter p).map f).sum := by
  induction l with
  | nil => rfl
  | cons a rest ih =>
    have ih2 := ih (fun x hx => h x (List.mem_cons_of_mem _ hx))
    cases hp : p a
    · have h0 := h a (List.mem_cons_self _ _) hp
      simp [List.filter, hp, h0, ih2]
    · simp [List.filter, hp, ih2]

theorem sum_bounds_of_each {α : Type} (l : List α) (f : α → Int) (w : α → ℚ) (c1 c2 : ℚ)
    (h : ∀ a ∈ l, (f a : ℚ) ≤ w a * c2 ∧ w a * c1 - 1 < (f a : ℚ)) :
    (((l.map f).sum : Int) : ℚ) ≤ (l.map w).sum * c2
      ∧ (l.map w).sum * c1 - (l.length : ℚ) ≤ (((l.map f).sum : Int) : ℚ)
      ∧ (l ≠ [] → (l.map w).sum * c1 - (l.length : ℚ) < (((l.map f).sum : Int) : ℚ)) := by
  induction l with
  | nil => simp
  | cons a rest ih =>
    obtain ⟨i1, i2, _⟩ := ih (fun x hx => h x (List.mem_cons_of_mem _ hx))
    obtain ⟨h1, h2⟩ := h a (List.mem_cons_self _ _)
    simp only [List.map_cons, List.sum_cons, List.length_cons, Int.cast_add, Nat.cast_add,
      Nat.cast_one, add_mul]
    refine ⟨?_, ?_, ?_⟩
    · linarith
    · linarith
    · intro _
      linarith

theorem sum_map_share (l : List Vote) (t b d : ℚ) :
    (l.map (fun v => (v.Power : ℚ) / t * b * d)).sum
      = (((l.map (fun v => v.Power)).sum : Int) : ℚ) / t * b * d := by
  induction l with
  | nil => simp
  | cons a rest ih =>
    simp only [List.map_cons, List.sum_cons, ih, Int.cast_add]
    ring

theorem F64.toInt64_of_fits {x : ℚ} (h0 : 0 ≤ x) (hfit : F64.FitsInt64 (.fin x)) :
    F64.toInt64 (.fin x) = ⌊x⌋ := by
  have hin : InInt64 (F64.truncQ x) := hfit
  simp only [F64.toInt64, hin, if_true]
  simp [F64.truncQ, h0]

/-! ## Settlement: the total dividend -/

theorem totalDividend_eq_winning (app : RegistryApp) (ballot : Ballot) (c : Bool) (pool : F64)
    (visited : List (Bytes × Record)) :
    totalDividend app ballot c pool visited
      = ((winningVotes c visited).map
          (fun v => votePayout app ballot c pool v - v.Power)).sum := by
  unfold totalDividend winningVotes
  rw [← sum_map_filter_of_zero _ (fun v => c == v.Choice)
    (fun v => votePayout app ballot c pool v - v.Power)]
  · rw [List.map_map]
    rfl
  · intro v _ hv
    simp [votePayout, hv]

theorem winning_dividend (app : RegistryApp) (ballot : Ballot) (c : Bool) (t : Int) (d : ℚ)
    (v : Vote) (hc : (c == v.Choice) = true)
    (hd : app.dispensationPct = .fin d) (hd0 : 0 ≤ d) (hB : 0 ≤ ballot.Bond)
    (hp : 0 ≤ v.Power) (ht : 0 < t) (ht2 : t ≤ 2 ^ 63)
    (hfit : F64.FitsInt64 (voterShare app ballot (F64.ofInt t) v.Power))
    (hsum : v.Power + F64.toInt64 (voterShare app ballot (F64.ofInt t) v.Power) < 2 ^ 63) :
    ((votePayout app ballot c (F64.ofInt t) v - v.Power : Int) : ℚ)
        ≤ (v.Power : ℚ) / (t : ℚ) * (ballot.Bond : ℚ) * d * (1 + 1 / 2 ^ 49)
      ∧ (v.Power : ℚ) / (t : ℚ) * (ballot.Bond : ℚ) * d * (1 - 1 / 2 ^ 49) - 1
        < ((votePayout app ballot c (F64.ofInt t) v - v.Power : Int) : ℚ) := by
  cases hx : voterShare app ballot (F64.ofInt t) v.Power with
  | nan => rw [hx] at hfit; exact absurd hfit (by simp [F64.FitsInt64])
  | pinf => rw [hx] at hfit; exact absurd hfit (by simp [F64.FitsInt64])
  | ninf => rw [hx] at hfit; exact absurd hfit (by simp [F64.FitsInt64])
  | fin x =>
    obtain ⟨hx0, hup, hlo⟩ := voterShare_bounds app ballot t v.Power d x hd hd0 hB hp ht ht2 hx
    rw [hx] at hfit hsum
    have hto : F64.toInt64 (.fin x) = ⌊x⌋ := F64.toInt64_of_fits hx0 hfit
    have hfl : 0 ≤ ⌊x⌋ := Int.floor_nonneg.mpr hx0
    have hpay : votePayout app ballot c (F64.ofInt t) v - v.Power = ⌊x⌋ := by
      simp only [votePayout, hc, if_true, voterDividend, hx, hto]
      rw [hto] at hsum
      unfold add64
      rw [wrap64_of_inInt64]
      · ring
      · unfold InInt64
        omega
    rw [hpay]
    exact ⟨hup, hlo⟩

/-- C20, as amended: when a non-empty, due, active head ballot is settled with a bond
`>= 0`, a finite rate `d >= 0` and non-negative vote powers, and the winning tally (the
pool) is positive, below `2^63` and equal to the sum of the powers of the winning-side
vote records, and every winning-side share converts to `int64` within range and does not
make the `int64` sum of power and dividend wrap, then the credits made after the sponsor
credit are those of the vote loop, and their total dividend (payout minus power, summed
over all vote records as exact integers) is at most `bond * d * (1 + 2^-49)` and greater
than `bond * d * (1 - 2^-49)` minus the number of winning-side records. -/
theorem endBlocker_dividend_total (app : RegistryApp) (s : State) (d : ℚ)
    (hid : (ProposalQueueHead s).Identifier ≠ [])
    (hdue : (ProposalQueueHead s).EndApplyBlockStamp ≤ s.height)
    (hact : (ProposalQueueHead s).Active = true)
    (hd : app.dispensationPct = .fin d) (hd0 : 0 ≤ d)
    (hB : 0 ≤ (ProposalQueueHead s).Bond)
    (hpow : ∀ kv ∈ voteEntries s (ProposalQueueHead s).Identifier,
      0 ≤ (decodeVote kv.2).Power)
    (hpool : 0 < poolTally app (ProposalQueueHead s))
    (hpool2 : poolTally app (ProposalQueueHead s) < 2 ^ 63)
    (hsum : poolTally app (ProposalQueueHead s)
      = ((winningVotes (correctVote app (ProposalQueueHead s))
          (voteEntries s (ProposalQueueHead s).Identifier)).map (fun v => v.Power)).sum)
    (hfit : ∀ v ∈ winningVotes (correctVote app (ProposalQueueHead s))
        (voteEntries s (ProposalQueueHead s).Identifier),
      F64.FitsInt64 (voterShare app (ProposalQueueHead s)
          (F64.ofInt (poolTally app (ProposalQueueHead s))) v.Power)
        ∧ v.Power + F64.toInt64 (voterShare app (ProposalQueueHead s)
          (F64.ofInt (poolTally app (ProposalQueueHead s))) v.Power) < 2 ^ 63) :
    (∃ sponsor, (endBlocker app s).credits
        = s.credits ++ sponsor :: voteCredits app (ProposalQueueHead s)
            (correctVote app (ProposalQueueHead s))
            (F64.ofInt (poolTally app (ProposalQueueHead s)))
            (voteEntries s (ProposalQueueHead s).Identifier))
      ∧ ((totalDividend app (ProposalQueueHead s) (correctVote app (ProposalQueueHead s))
            (F64.ofInt (poolTally app (ProposalQueueHead s)))
            (voteEntries s (ProposalQueueHead s).Identifier) : Int) : ℚ)
          ≤ ((ProposalQueueHead s).Bond : ℚ) * d * (1 + 1 / 2 ^ 49)
      ∧ ((ProposalQueueHead s).Bond : ℚ) * d * (1 - 1 / 2 ^ 49)
            - ((winningVotes (correctVote app (ProposalQueueHead s))
                (voteEntries s (ProposalQueueHead s).Identifier)).length : ℚ)
          < ((totalDividend app (ProposalQueueHead s) (correctVote app (ProposalQueueHead s))
            (F64.ofInt (poolTally app (ProposalQueueHead s)))
            (voteEntries s (ProposalQueueHead s).Identifier) : Int) : ℚ) := by
  refine ⟨endBlocker_credits app s hid hdue hact, ?_⟩
  have htq : (poolTally app (ProposalQueueHead s) : ℚ) ≠ 0 := by
    have : (0 : ℚ) < (poolTally app (ProposalQueueHead s) : ℚ) := by exact_mod_cast hpool
    exact ne_of_gt this
  have heach : ∀ v ∈ winningVotes (correctVote app (ProposalQueueHead s))
      (voteEntries s (ProposalQueueHead s).Identifier),
      ((votePayout app (ProposalQueueHead s) (correctVote app (ProposalQueueHead s))
          (F64.ofInt (poolTally app (ProposalQueueHead s))) v - v.Power : Int) : ℚ)
        ≤ ((v.Power : ℚ) / (poolTally app (ProposalQueueHead s) : ℚ)
            * ((ProposalQueueHead s).Bond : ℚ) * d) * (1 + 1 / 2 ^ 49)
      ∧ ((v.Power : ℚ) / (poolTally app (ProposalQueueHead s) : ℚ)
            * ((ProposalQueueHead s).Bond : ℚ) * d) * (1 - 1 / 2 ^ 49) - 1
        < ((votePayout app (ProposalQueueHead s) (correctVote app (ProposalQueueHead s))
          (F64.ofInt (poolTally app (ProposalQueueHead s))) v - v.Power : Int) : ℚ) := by
    intro v hv
    have hv2 := List.mem_filter.mp hv
    obtain ⟨kv, hkv, hkve⟩ := List.mem_map.mp hv2.1
    have hp : 0 ≤ v.Power := by
      rw [← hkve]
      exact hpow kv hkv
    exact winning_dividend app _ _ _ d v hv2.2 hd hd0 hB hp hpool (le_of_lt hpool2)
      (hfit v hv).1 (hfit v hv).2
  obtain ⟨b1, _, b3⟩ := sum_bounds_of_each _ _ _ (1 - 1 / 2 ^ 49) (1 + 1 / 2 ^ 49) heach
  have hne : winningVotes (correctVote app (ProposalQueueHead s))
      (voteEntries s (ProposalQueueHead s).Identifier) ≠ [] := by
    intro he
    rw [he] at hsum
    simp at hsum
    omega
  rw [sum_map_share, ← hsum, div_self htq, one_mul] at b1 b3
  rw [totalDividend_eq_winning]
  exact ⟨b1, b3 hne⟩

/-- Witness of C20: with bond `100`, rate `1/4` and tallies `3` to `1`, the single winning
vote of `"A"` with power `3` receives the dividend `25`, which lies between
`25 * (1 - 2^-49) - 1` and `25 * (1 + 2^-49)`. -/
theorem endBlocker_dividend_total_witness :
    totalDividend exApp (ProposalQueueHead (exState 3 1 3 1))
        (correctVote exApp (ProposalQueueHead (exState 3 1 3 1)))
        (F64.ofInt (poolTally exApp (ProposalQueueHead (exState 3 1 3 1))))
        (voteEntries (exState 3 1 3 1) (ProposalQueueHead (exState 3 1 3 1)).Identifier) = 25
      ∧ ((25 : Int) : ℚ) ≤ ((100 : Int) : ℚ) * (1 / 4) * (1 + 1 / 2 ^ 49)
      ∧ ((100 : Int) : ℚ) * (1 / 4) * (1 - 1 / 2 ^ 49) - ((1 : Nat) : ℚ) < ((25 : Int) : ℚ) := by
  have h := endBlocker_dividend_total exApp (exState 3 1 3 1) (1 / 4) (by decide) (by decide)
    (by decide) rfl (by norm_num) (by decide) (by decide) (by decide!) (by decide!)
    (by decide!) (by decide!)
  have ht : totalDividend exApp (ProposalQueueHead (exState 3 1 3 1))
      (correctVote exApp (ProposalQueueHead (exState 3 1 3 1)))
      (F64.ofInt (poolTally exApp (ProposalQueueHead (exState 3 1 3 1))))
      (voteEntries (exState 3 1 3 1) (ProposalQueueHead (exState 3 1 3 1)).Identifier)
      = 25 := by decide!
  have hn : (winningVotes (correctVote exApp (ProposalQueueHead (exState 3 1 3 1)))
      (voteEntries (exState 3 1 3 1)
        (ProposalQueueHead (exState 3 1 3 1)).Identifier)).length = 1 := by decide!
  have hb : (ProposalQueueHead (exState 3 1 3 1)).Bond = 100 := by decide
  rw [ht, hn, hb] at h
  exact ⟨ht, h.2.1, h.2.2⟩

/-- Counterexample to C20 as stated, for each bound. Lower bound: bond `28`, rate `0.75`,
winning votes of power `1` and `2` (pool `3`); the nominal pool is `21` and the two shares
are `7` and `14`, but their `float64` values fall just below and truncate to `6` and `13`:
the total dividend is `19`, which is not greater than `21 - 2`. Upper bound: bond `2^54`,
rate `1`, five winning votes of power `1` (pool `5`); each dividend is `3602879701896397`
and the total `2^54 + 1` exceeds the nominal pool `2^54`. In both states the ballot is
active and due, approve wins, and the pool is the sum of the winning powers. -/
theorem endBlocker_dividend_total_counterexample :
    ((ProposalQueueHead exRoundState).Active = true
        ∧ (ProposalQueueHead exRoundState).EndApplyBlockStamp ≤ exRoundState.height
        ∧ (ProposalQueueHead exRoundState).Bond = 28
        ∧ F64.le (.fin 0) exRoundApp.dispensationPct = true
        ∧ exRoundApp.dispensationPct = .fin (3 / 4)
        ∧ (∀ kv ∈ voteEntries exRoundState ['X'], 0 ≤ (decodeVote kv.2).Power)
        ∧ correctVote exRoundApp (ProposalQueueHead exRoundState) = true
        ∧ poolTally exRoundApp (ProposalQueueHead exRoundState) = 3
        ∧ ((winningVotes true (voteEntries exRoundState ['X'])).map (fun v => v.Power)).sum = 3
        ∧ (winningVotes true (voteEntries exRoundState ['X'])).length = 2
        ∧ (endBlocker exRoundApp exRoundState).credits = [(['o'], 21), (['A'], 7), (['B'], 15)]
        ∧ totalDividend exRoundApp (ProposalQueueHead exRoundState) true (F64.ofInt 3)
            (voteEntries exRoundState ['X']) = 19
        ∧ ¬ ((28 : ℚ) * (3 / 4) - 2 < 19))
      ∧ ((ProposalQueueHead exBigState).Active = true
        ∧ (ProposalQueueHead exBigState).EndApplyBlockStamp ≤ exBigState.height
        ∧ (ProposalQueueHead exBigState).Bond = 18014398509481984
        ∧ exMaxApp.dispensationPct = .fin 1
        ∧ (∀ kv ∈ voteEntries exBigState ['X'], 0 ≤ (decodeVote kv.2).Power)
        ∧ correctVote exMaxApp (ProposalQueueHead exBigState) = true
        ∧ poolTally exMaxApp (ProposalQueueHead exBigState) = 5
        ∧ ((winningVotes true (voteEntries exBigState ['X'])).map (fun v => v.Power)).sum = 5
        ∧ totalDividend exMaxApp (ProposalQueueHead exBigState) true (F64.ofInt 5)
            (voteEntries exBigState ['X']) = 18014398509481985
        ∧ ¬ ((18014398509481985 : ℚ) ≤ 18014398509481984 * 1)) := by
  refine ⟨⟨by decide, by decide, by decide, by decide!, rfl, by decide, by decide!,
    by decide!, by decide, by decide, by decide!, by decide!, by norm_num⟩,
    ⟨by decide, by decide, by decide, rfl, by decide, by decide!, by decide!, by decide,
      by decide!, by norm_num⟩⟩

end TCR
